import Mathlib

/-!
Verification development for the LSP transport in `helix-lsp/src/transport.rs`.

The development has two parts:

* A byte-level model of the frame codec (`recv_server_message`,
  `send_string_to_server`): streams are lists of bytes (`Nat`s below 256),
  headers are parsed line by line as the source does, and message bodies go
  through a small JSON codec.  The JSON wire layer itself (serde_json /
  sonic_rs and the `jsonrpc` module's `Deserialize` shapes) is an external
  collaborator of this file's source, so its shape classification is modelled
  from the spec where noted.

* A small-step operational model of one transport instance: the three tasks
  (Reader, Error Reader, Writer/Dispatcher) interleave through an event
  script, acting on a state holding the pending-request table, the handshake
  gate flag and deferred queue, the wire log, the upstream inbound log, and
  the completion-channel delivery log.  One-shot completion senders are
  modelled by numeric channel tokens; a delivery `(c, r)` records that result
  `r` was sent on the channel with token `c`.  The fields `insertions` and
  `removals` instrument the pending-table operations: every `HashMap::insert`
  appends the inserted sender's token to `insertions`, and every
  `HashMap::remove` / `drain` appends each removed sender's token to
  `removals`.
-/

namespace LspT

/-- Byte strings: each element is a byte (a `Nat`; only values < 256 occur). -/
abbrev Bytes := List Nat

/-! ### JSON values (model of `serde_json::Value` restricted to what the
transport exchanges: null, booleans, integers, strings, arrays, objects).
String contents are raw UTF-8 bytes. -/

inductive Json where
  | null
  | boolean (b : Bool)
  | num (n : Int)
  | str (s : Bytes)
  | arr (xs : List Json)
  | obj (fields : List (Bytes × Json))

mutual

def decEqJ : (a b : Json) → Decidable (a = b)
  | .null, .null => .isTrue rfl
  | .null, .boolean _ => .isFalse (fun h => Json.noConfusion h)
  | .null, .num _ => .isFalse (fun h => Json.noConfusion h)
  | .null, .str _ => .isFalse (fun h => Json.noConfusion h)
  | .null, .arr _ => .isFalse (fun h => Json.noConfusion h)
  | .null, .obj _ => .isFalse (fun h => Json.noConfusion h)
  | .boolean _, .null => .isFalse (fun h => Json.noConfusion h)
  | .boolean a, .boolean b =>
      if h : a = b then .isTrue (by rw [h]) else .isFalse (by simp [h])
  | .boolean _, .num _ => .isFalse (fun h => Json.noConfusion h)
  | .boolean _, .str _ => .isFalse (fun h => Json.noConfusion h)
  | .boolean _, .arr _ => .isFalse (fun h => Json.noConfusion h)
  | .boolean _, .obj _ => .isFalse (fun h => Json.noConfusion h)
  | .num _, .null => .isFalse (fun h => Json.noConfusion h)
  | .num _, .boolean _ => .isFalse (fun h => Json.noConfusion h)
  | .num a, .num b =>
      if h : a = b then .isTrue (by rw [h]) else .isFalse (by simp [h])
  | .num _, .str _ => .isFalse (fun h => Json.noConfusion h)
  | .num _, .arr _ => .isFalse (fun h => Json.noConfusion h)
  | .num _, .obj _ => .isFalse (fun h => Json.noConfusion h)
  | .str _, .null => .isFalse (fun h => Json.noConfusion h)
  | .str _, .boolean _ => .isFalse (fun h => Json.noConfusion h)
  | .str _, .num _ => .isFalse (fun h => Json.noConfusion h)
  | .str a, .str b =>
      if h : a = b then .isTrue (by rw [h]) else .isFalse (by simp [h])
  | .str _, .arr _ => .isFalse (fun h => Json.noConfusion h)
  | .str _, .obj _ => .isFalse (fun h => Json.noConfusion h)
  | .arr _, .null => .isFalse (fun h => Json.noConfusion h)
  | .arr _, .boolean _ => .isFalse (fun h => Json.noConfusion h)
  | .arr _, .num _ => .isFalse (fun h => Json.noConfusion h)
  | .arr _, .str _ => .isFalse (fun h => Json.noConfusion h)
  | .arr xs, .arr ys =>
      match decEqJL xs ys with
      | .isTrue h => .isTrue (by rw [h])
      | .isFalse h => .isFalse (by simp [h])
  | .arr _, .obj _ => .isFalse (fun h => Json.noConfusion h)
  | .obj _, .null => .isFalse (fun h => Json.noConfusion h)
  | .obj _, .boolean _ => .isFalse (fun h => Json.noConfusion h)
  | .obj _, .num _ => .isFalse (fun h => Json.noConfusion h)
  | .obj _, .str _ => .isFalse (fun h => Json.noConfusion h)
  | .obj _, .arr _ => .isFalse (fun h => Json.noConfusion h)
  | .obj fs, .obj gs =>
      match decEqJF fs gs with
      | .isTrue h => .isTrue (by rw [h])
      | .isFalse h => .isFalse (by simp [h])

def decEqJL : (a b : List Json) → Decidable (a = b)
  | [], [] => .isTrue rfl
  | [], _ :: _ => .isFalse (fun h => List.noConfusion h)
  | _ :: _, [] => .isFalse (fun h => List.noConfusion h)
  | x :: xs, y :: ys =>
      match decEqJ x y with
      | .isTrue h1 =>
          match decEqJL xs ys with
          | .isTrue h2 => .isTrue (by rw [h1, h2])
          | .isFalse h2 => .isFalse (by simp [h2])
      | .isFalse h1 => .isFalse (by simp [h1])

def decEqJF : (a b : List (Bytes × Json)) → Decidable (a = b)
  | [], [] => .isTrue rfl
  | [], _ :: _ => .isFalse (fun h => List.noConfusion h)
  | _ :: _, [] => .isFalse (fun h => List.noConfusion h)
  | (k, v) :: fs, (l, w) :: gs =>
      if hk : k = l then
        match decEqJ v w with
        | .isTrue h1 =>
            match decEqJF fs gs with
            | .isTrue h2 => .isTrue (by rw [hk, h1, h2])
            | .isFalse h2 => .isFalse (by simp [h2])
        | .isFalse h1 => .isFalse (by simp [h1])
      else .isFalse (by simp [hk])

end

instance : DecidableEq Json := decEqJ

/-- `jsonrpc::Id`: null, numeric or string correlation id. -/
inductive JId where
  | null
  | num (n : Int)
  | str (s : Bytes)
deriving DecidableEq

/-- `jsonrpc::Params`: absent, positional, or named parameters. -/
inductive JParams where
  | nothing
  | arr (xs : List Json)
  | map (fields : List (Bytes × Json))
deriving DecidableEq

/-- `jsonrpc::MethodCall` (the `jsonrpc` version tag is fixed, not modelled). -/
structure MethodCall where
  id : JId
  method : Bytes
  params : JParams
deriving DecidableEq

/-- `jsonrpc::Notification`. -/
structure Notif where
  method : Bytes
  params : JParams
deriving DecidableEq

/-- `jsonrpc::Output`: a response, `Success {id, result}` or `Failure {id, error}`. -/
inductive Output where
  | success (id : JId) (result : Json)
  | failure (id : JId) (error : Json)
deriving DecidableEq

/-- `jsonrpc::Call`: a peer-originated request or notification. -/
inductive Call where
  | methodCall (m : MethodCall)
  | notif (n : Notif)
deriving DecidableEq

/-- `ServerMessage` (transport.rs lines 31-40): response or peer call. -/
inductive ServerMessage where
  | output (o : Output)
  | call (c : Call)
deriving DecidableEq

/-- `Payload` (transport.rs lines 21-29).  The one-shot completion sender
`chan: Sender<Result<Value>>` is modelled by a numeric channel token. -/
inductive Payload where
  | request (chan : Nat) (value : MethodCall)
  | notif (n : Notif)
  | response (o : Output)
deriving DecidableEq

/-- Transport-level error delivered on completion channels (`Error`). -/
inductive TError where
  | streamClosed
  | rpc (e : Json)
deriving DecidableEq

/-- `Result<Value, Error>` as delivered on a completion channel. -/
inductive TRes where
  | ok (v : Json)
  | err (e : TError)
deriving DecidableEq

/-! ### Method-name byte constants (ASCII). -/

/-- ASCII bytes of "initialize" (`lsp::request::Initialize::METHOD`). -/
def initializeMethod : Bytes := [105, 110, 105, 116, 105, 97, 108, 105, 122, 101]

/-- ASCII bytes of "initialized" (`lsp::notification::Initialized::METHOD`). -/
def initializedMethod : Bytes := [105, 110, 105, 116, 105, 97, 108, 105, 122, 101, 100]

/-- ASCII bytes of "shutdown" (`lsp::request::Shutdown::METHOD`). -/
def shutdownMethod : Bytes := [115, 104, 117, 116, 100, 111, 119, 110]

/-- ASCII bytes of "exit" (`lsp::notification::Exit::METHOD`). -/
def exitMethod : Bytes := [101, 120, 105, 116]

/-- `is_initialize` (transport.rs lines 347-364): an Initialize request or an
Initialized notification may be sent while the gate is still pending. -/
def is_initialize (p : Payload) : Bool :=
  match p with
  | .request _ v => decide (v.method = initializeMethod)
  | .notif n => decide (n.method = initializedMethod)
  | .response _ => false

/-- `is_shutdown` (transport.rs lines 366-369). -/
def is_shutdown (p : Payload) : Bool :=
  match p with
  | .request _ v => decide (v.method = shutdownMethod)
  | _ => false

/-! ### Transport state

The mutable state of one transport instance together with observation logs.
`pending` is the pending-requests table (`Mutex<HashMap<Id, Sender>>`),
`pendingMessages` and `isPending` are the Writer task's locals, `wire` is the
ordered log of payloads framed onto the server's stdin, `inbound` the ordered
log of calls forwarded on `client_tx`, `deliveries` the ordered log of sends
on completion channels, and `insertions` / `removals` instrument the table. -/

structure TState where
  pending : List (JId × Nat)
  pendingMessages : List Payload
  isPending : Bool
  readerAlive : Bool
  writerAlive : Bool
  wire : List Payload
  inbound : List Call
  deliveries : List (Nat × TRes)
  insertions : List Nat
  removals : List Nat
deriving DecidableEq

/-- The state right after `Transport::start`: empty table, pending gate,
all tasks live. -/
def initState : TState :=
  { pending := [], pendingMessages := [], isPending := true,
    readerAlive := true, writerAlive := true, wire := [], inbound := [],
    deliveries := [], insertions := [], removals := [] }

/-- `HashMap` lookup on the association-list model of the pending table. -/
def tableFind (id : JId) (t : List (JId × Nat)) : Option Nat :=
  (t.find? (fun e => decide (e.1 = id))).map (fun e => e.2)

/-- `HashMap::remove` on the model (drops every binding of `id`; when ids are
distinct this is exactly one entry). -/
def tableErase (id : JId) (t : List (JId × Nat)) : List (JId × Nat) :=
  t.filter (fun e => !(decide (e.1 = id)))

/-- `HashMap::insert` on the model: replaces any existing binding of `id`. -/
def tableInsert (id : JId) (chan : Nat) (t : List (JId × Nat)) : List (JId × Nat) :=
  tableErase id t ++ [(id, chan)]

/-- `Transport::send_payload_to_server` (transport.rs lines 158-177): a
Request payload registers its completion sender in the pending table and is
then framed onto the wire; Notification and Response payloads are framed
directly.  (The model has no I/O failures on the outbound stream.) -/
def sendPayload (s : TState) (p : Payload) : TState :=
  match p with
  | .request chan value =>
      { s with pending := tableInsert value.id chan s.pending,
               insertions := s.insertions ++ [chan],
               wire := s.wire ++ [Payload.request chan value] }
  | .notif n => { s with wire := s.wire ++ [Payload.notif n] }
  | .response o => { s with wire := s.wire ++ [Payload.response o] }

/-- The id a response resolves against. -/
def outputId (o : Output) : JId :=
  match o with
  | .success id _ => id
  | .failure id _ => id

/-- The result a response delivers: `Ok(result)` for Success, the peer error
as an ordinary failure for Failure (transport.rs lines 226-232). -/
def outputRes (o : Output) : TRes :=
  match o with
  | .success _ r => .ok r
  | .failure _ e => .err (.rpc e)

/-- `Transport::process_request_response` (transport.rs lines 221-251):
remove the sender registered under the response's id and deliver the result
on it; if no sender is registered, discard with a log and change nothing. -/
def processOutput (s : TState) (o : Output) : TState :=
  match tableFind (outputId o) s.pending with
  | some chan =>
      { s with pending := tableErase (outputId o) s.pending,
               removals := s.removals ++ [chan],
               deliveries := s.deliveries ++ [(chan, outputRes o)] }
  | none => s

/-- The synthesized "exit" notification the Reader forwards upstream on
stream termination (transport.rs lines 299-305). -/
def exitCall : Call := .notif { method := exitMethod, params := .nothing }

/-- The synthesized "initialized" notification the Writer forwards upstream
on the Ready transition (transport.rs lines 380-386). -/
def initializedCall : Call := .notif { method := initializedMethod, params := .nothing }

/-- One scheduling event of the interleaved execution.  `readMsg m` is the
Reader decoding one frame successfully; `readClosed` is the Reader hitting
`StreamClosed` or a fatal decode error; `notifyInit` is the Writer observing
the one-time initialization signal; `sendMsg p` is the Writer dequeuing the
payload `p` from the outbound channel (the channel is FIFO, so the sequence
of `sendMsg` events is the enqueue order); `chanClosed` is the Writer seeing
the outbound channel closed. -/
inductive Event where
  | readMsg (m : ServerMessage)
  | readClosed
  | notifyInit
  | sendMsg (p : Payload)
  | chanClosed
deriving DecidableEq

/-- One interleaved step of the transport (transport.rs lines 253-319 for the
Reader, 336-434 for the Writer/Dispatcher).  `none` means the event cannot
occur in this state (its task has already exited, or the one-time signal has
already fired). -/
def step (s : TState) (e : Event) : Option TState :=
  match e with
  | .readMsg m =>
      if s.readerAlive then
        match m with
        | .output o => some (processOutput s o)
        | .call c => some { s with inbound := s.inbound ++ [c] }
      else none
  | .readClosed =>
      if s.readerAlive then
        some { s with
          pending := [],
          removals := s.removals ++ s.pending.map (fun e => e.2),
          deliveries := s.deliveries ++ s.pending.map (fun e => (e.2, TRes.err TError.streamClosed)),
          inbound := s.inbound ++ [exitCall],
          readerAlive := false }
      else none
  | .notifyInit =>
      if s.writerAlive && s.isPending then
        some (s.pendingMessages.foldl sendPayload
          { s with isPending := false,
                   inbound := s.inbound ++ [initializedCall],
                   pendingMessages := [] })
      else none
  | .sendMsg p =>
      if s.writerAlive then
        if s.isPending && is_shutdown p then
          some { s with writerAlive := false }
        else if s.isPending && !( is_initialize p) then
          match p with
          | .notif _ => some s
          | _ => some { s with pendingMessages := s.pendingMessages ++ [p] }
        else
          some (sendPayload s p)
      else none
  | .chanClosed =>
      if s.writerAlive then some { s with writerAlive := false } else none

/-- Run an event script from a state; `none` if some event is invalid. -/
def run (s : TState) : List Event → Option TState
  | [] => some s
  | e :: evs =>
      match step s e with
      | some s1 => run s1 evs
      | none => none

/-! ### Trace instrumentation for the pending-table claims -/

/-- Both tasks have exited: the transport instance is fully torn down. -/
def terminated (s : TState) : Prop :=
  s.readerAlive = false ∧ s.writerAlive = false

/-- The (id, channel token) pairs of the request payloads an event carries. -/
def eventReqPairs : Event → List (JId × Nat)
  | .sendMsg (.request chan v) => [(v.id, chan)]
  | _ => []

/-- All (id, channel token) request pairs of a trace, in order. -/
def traceReqPairs (evs : List Event) : List (JId × Nat) :=
  (evs.map eventReqPairs).flatten

/-- A well-formed trace: correlation ids of distinct requests are distinct
(the spec's uniqueness condition on `MethodCall.id`), and distinct requests
carry distinct one-shot completion senders. -/
def WfTrace (evs : List Event) : Prop :=
  ((traceReqPairs evs).map Prod.fst).Nodup ∧
  ((traceReqPairs evs).map Prod.snd).Nodup

instance (evs : List Event) : Decidable (WfTrace evs) := by
  unfold WfTrace
  infer_instance

/-! ### Pending-table discipline invariant -/

/-- The (id, channel token) pairs of the request payloads in a payload list
(used for the deferred queue). -/
def defReqPairs (L : List Payload) : List (JId × Nat) :=
  L.filterMap (fun p =>
    match p with
    | .request chan v => some (v.id, chan)
    | _ => none)

/-- Every channel token the state still references: already-removed tokens,
tokens registered in the pending table, and tokens of deferred requests. -/
def stateTokens (s : TState) : List Nat :=
  s.removals ++ s.pending.map Prod.snd ++ (defReqPairs s.pendingMessages).map Prod.snd

/-- Every correlation id the state still references: ids registered in the
pending table and ids of deferred requests. -/
def stateIds (s : TState) : List JId :=
  s.pending.map Prod.fst ++ (defReqPairs s.pendingMessages).map Prod.fst

/-- The pending-table discipline: every inserted sender is accounted for by
exactly one removal or one live table entry; tokens are never duplicated
across removals, the table, and the deferred queue; ids are never duplicated
across the table and the deferred queue. -/
def GoodState (s : TState) : Prop :=
  (∀ x, s.insertions.count x = s.removals.count x + (s.pending.map Prod.snd).count x) ∧
  (stateTokens s).Nodup ∧
  (stateIds s).Nodup

/-! ### Claim C1 -/

/-- Claim C1 as stated: every completion sender inserted into the pending
table is removed from it exactly once over every (well-formed, terminated)
execution, including senders inserted after the Reader task has already run
its termination drain. -/
def C1Strong : Prop :=
  ∀ evs s, WfTrace evs → run initState evs = some s → terminated s →
    ∀ c ∈ s.insertions, s.removals.count c = 1

/-- The trace refuting claim C1: the gate becomes Ready, the Reader then
terminates (running the drain on an empty table), and only afterwards the
Writer dequeues a request, inserting its sender into the table; that sender
is never removed. -/
def c1Trace : List Event :=
  [Event.notifyInit, Event.readClosed,
   Event.sendMsg (Payload.request 0
     { id := JId.num 1, method := [102, 111, 111], params := JParams.nothing }),
   Event.chanClosed]

/-! ### Claim C2 -/

/-- The payloads a Pending-phase trace writes immediately: exactly the
handshake's own messages (transport.rs line 420 reached because
`is_initialize` holds). -/
def earlyWrites (evs : List Event) : List Payload :=
  evs.filterMap (fun e =>
    match e with
    | .sendMsg p => if is_initialize p then some p else none
    | _ => none)

/-- The payloads a Pending-phase trace defers, in FIFO order: dequeued
non-handshake requests and responses; notifications are dropped
(transport.rs lines 411-418). -/
def deferredOf (evs : List Event) : List Payload :=
  evs.filterMap (fun e =>
    match e with
    | .sendMsg p =>
        if is_initialize p then none
        else
          match p with
          | .notif _ => none
          | _ => some p
    | _ => none)

/-- All payloads dequeued from the outbound channel by a trace, in order. -/
def sentOf (evs : List Event) : List Payload :=
  evs.filterMap (fun e =>
    match e with
    | .sendMsg p => some p
    | _ => none)

/-! ### Frame codec: byte-level model of `recv_server_message` (transport.rs
lines 90-142) and `send_string_to_server` (lines 179-198).

The inbound stream, the reusable line buffer and the reusable content buffer
are lists of bytes.  `read_line` (tokio) reads up to and including a newline
byte and fails on invalid UTF-8; `read_exact` fills the whole content buffer.
JSON text (the serde_json / sonic_rs boundary) is modelled by a small
executable JSON codec over bytes. -/

/-- JSON whitespace bytes (space, tab, line feed, carriage return). -/
def isWsByte (b : Nat) : Bool := b = 32 || b = 9 || b = 10 || b = 13

/-- ASCII whitespace as stripped by Rust's `str::trim` (the non-ASCII
Unicode whitespace code points are out of scope of the byte model). -/
def isTrimByte (b : Nat) : Bool :=
  b = 9 || b = 10 || b = 11 || b = 12 || b = 13 || b = 32

/-- `read_line`: split off one line, including its terminating newline byte
when present; reading at end of stream yields an empty line (0 bytes read). -/
def readLineAux : Bytes → Bytes × Bytes
  | [] => ([], [])
  | b :: rest =>
      if b = 10 then ([10], rest)
      else
        let pr := readLineAux rest
        (b :: pr.1, pr.2)

/-- `str::trim` on bytes. -/
def trimBytes (l : Bytes) : Bytes :=
  ((l.dropWhile isTrimByte).reverse.dropWhile isTrimByte).reverse

/-- `str::split_once(": ")`: split at the first occurrence of `": "`. -/
def splitOnce : Bytes → Option (Bytes × Bytes)
  | [] => none
  | b :: rest =>
      if b = 58 then
        match rest with
        | 32 :: rest2 => some ([], rest2)
        | _ => (splitOnce rest).map (fun pr => (b :: pr.1, pr.2))
      else (splitOnce rest).map (fun pr => (b :: pr.1, pr.2))

def isDigit (b : Nat) : Bool := 48 ≤ b && b ≤ 57

/-- Value of a most-significant-first digit string. -/
def digitsVal (l : Bytes) : Nat := l.foldl (fun acc b => acc * 10 + (b - 48)) 0

/-- `usize::from_str`: an optional leading plus sign followed by one or more
decimal digits (overflow is out of scope of the model). -/
def parseUsize (l : Bytes) : Option Nat :=
  let l2 := if l.head? = some 43 then l.tail else l
  if !l2.isEmpty && l2.all isDigit then some (digitsVal l2) else none

/-- Decimal digits of a positive natural number, most significant first
(fuelled; the fuel always suffices when it is at least the number itself). -/
def natDigitsAux : Nat → Nat → Bytes
  | 0, _ => []
  | fuel + 1, n =>
      if n = 0 then [] else natDigitsAux fuel (n / 10) ++ [48 + n % 10]

/-- Decimal digits of a natural number, most significant first (the digits
written by `format!` for the Content-Length header value). -/
def natDigitsB (n : Nat) : Bytes :=
  if n = 0 then [48] else natDigitsAux n n

/-! #### UTF-8 validation (`std::str::from_utf8` and tokio's `read_line`). -/

/-- A UTF-8 continuation byte. -/
def isCont (b : Nat) : Bool := 128 ≤ b && b ≤ 191

/-- Consume one well-formed UTF-8 scalar from the front of a byte string. -/
def utf8Take : Bytes → Option Bytes
  | [] => none
  | b :: rest =>
      if b ≤ 127 then some rest
      else if 194 ≤ b && b ≤ 223 then
        match rest with
        | c1 :: r => if isCont c1 then some r else none
        | [] => none
      else if b = 224 then
        match rest with
        | c1 :: c2 :: r =>
            if (160 ≤ c1 && c1 ≤ 191) && isCont c2 then some r else none
        | _ => none
      else if 225 ≤ b && b ≤ 236 then
        match rest with
        | c1 :: c2 :: r => if isCont c1 && isCont c2 then some r else none
        | _ => none
      else if b = 237 then
        match rest with
        | c1 :: c2 :: r =>
            if (128 ≤ c1 && c1 ≤ 159) && isCont c2 then some r else none
        | _ => none
      else if 238 ≤ b && b ≤ 239 then
        match rest with
        | c1 :: c2 :: r => if isCont c1 && isCont c2 then some r else none
        | _ => none
      else if b = 240 then
        match rest with
        | c1 :: c2 :: c3 :: r =>
            if (144 ≤ c1 && c1 ≤ 191) && isCont c2 && isCont c3 then some r else none
        | _ => none
      else if 241 ≤ b && b ≤ 243 then
        match rest with
        | c1 :: c2 :: c3 :: r =>
            if isCont c1 && isCont c2 && isCont c3 then some r else none
        | _ => none
      else if b = 244 then
        match rest with
        | c1 :: c2 :: c3 :: r =>
            if (128 ≤ c1 && c1 ≤ 143) && isCont c2 && isCont c3 then some r else none
        | _ => none
      else none

/-- UTF-8 validity, fuelled (each scalar consumes at least one byte, so fuel
equal to the length always suffices). -/
def utf8ValidAux : Nat → Bytes → Bool
  | _, [] => true
  | 0, _ :: _ => false
  | fuel + 1, b :: rest =>
      match utf8Take (b :: rest) with
      | some r => utf8ValidAux fuel r
      | none => false

/-- UTF-8 validity of a whole byte string. -/
def utf8Valid (l : Bytes) : Bool := utf8ValidAux l.length l

/-! #### JSON codec over bytes (model of the serde_json / sonic_rs boundary). -/

def skipWs (l : Bytes) : Bytes := l.dropWhile isWsByte

def hexVal (b : Nat) : Option Nat :=
  if 48 ≤ b && b ≤ 57 then some (b - 48)
  else if 97 ≤ b && b ≤ 102 then some (b - 87)
  else if 65 ≤ b && b ≤ 70 then some (b - 55)
  else none

/-- Parse a JSON string body (after the opening quote): raw bytes, short
escapes, and `\uXXXX` escapes below 0x80. -/
def pStr : Bytes → Option (Bytes × Bytes)
  | [] => none
  | b :: rest =>
      if b = 34 then some ([], rest)
      else if b = 92 then
        match rest with
        | [] => none
        | e :: rest2 =>
            if e = 34 then (pStr rest2).map (fun pr => (34 :: pr.1, pr.2))
            else if e = 92 then (pStr rest2).map (fun pr => (92 :: pr.1, pr.2))
            else if e = 47 then (pStr rest2).map (fun pr => (47 :: pr.1, pr.2))
            else if e = 98 then (pStr rest2).map (fun pr => (8 :: pr.1, pr.2))
            else if e = 116 then (pStr rest2).map (fun pr => (9 :: pr.1, pr.2))
            else if e = 110 then (pStr rest2).map (fun pr => (10 :: pr.1, pr.2))
            else if e = 102 then (pStr rest2).map (fun pr => (12 :: pr.1, pr.2))
            else if e = 114 then (pStr rest2).map (fun pr => (13 :: pr.1, pr.2))
            else if e = 117 then
              match rest2 with
              | h1 :: h2 :: h3 :: h4 :: rest3 =>
                  match hexVal h1, hexVal h2, hexVal h3, hexVal h4 with
                  | some a, some b2, some c, some d =>
                      if a * 4096 + b2 * 256 + c * 16 + d < 128 then
                        (pStr rest3).map
                          (fun pr => ((a * 4096 + b2 * 256 + c * 16 + d) :: pr.1, pr.2))
                      else none
                  | _, _, _, _ => none
              | _ => none
            else none
      else if b < 32 then none
      else (pStr rest).map (fun pr => (b :: pr.1, pr.2))

/-- Maximal run of decimal digits. -/
def pDigits : Bytes → Bytes × Bytes
  | [] => ([], [])
  | b :: rest =>
      if isDigit b then
        let pr := pDigits rest
        (b :: pr.1, pr.2)
      else ([], b :: rest)

/-- Parse a nonnegative JSON integer; fractions and exponents are out of
scope of the model and rejected. -/
def pNum (l : Bytes) : Option (Nat × Bytes) :=
  let pr := pDigits l
  if pr.1.isEmpty then none
  else
    match pr.2 with
    | [] => some (digitsVal pr.1, [])
    | b :: rest =>
        if b = 46 then none
        else if b = 101 then none
        else if b = 69 then none
        else some (digitsVal pr.1, b :: rest)

mutual

/-- Parse one JSON value (fuelled recursion; the fuel exceeds the input
length at every entry point). -/
def pVal : Nat → Bytes → Option (Json × Bytes)
  | 0, _ => none
  | fuel + 1, l =>
      match skipWs l with
      | [] => none
      | b :: rest =>
          if b = 110 then
            match rest with
            | 117 :: 108 :: 108 :: r => some (Json.null, r)
            | _ => none
          else if b = 116 then
            match rest with
            | 114 :: 117 :: 101 :: r => some (Json.boolean true, r)
            | _ => none
          else if b = 102 then
            match rest with
            | 97 :: 108 :: 115 :: 101 :: r => some (Json.boolean false, r)
            | _ => none
          else if b = 34 then (pStr rest).map (fun pr => (Json.str pr.1, pr.2))
          else if b = 91 then
            match skipWs rest with
            | [] => none
            | b2 :: r =>
                if b2 = 93 then some (Json.arr [], r)
                else (pElems fuel (b2 :: r)).map (fun pr => (Json.arr pr.1, pr.2))
          else if b = 123 then
            match skipWs rest with
            | [] => none
            | b2 :: r =>
                if b2 = 125 then some (Json.obj [], r)
                else (pFields fuel (b2 :: r)).map (fun pr => (Json.obj pr.1, pr.2))
          else if b = 45 then
            (pNum rest).map (fun pr => (Json.num (-(pr.1 : Int)), pr.2))
          else if isDigit b then
            (pNum (b :: rest)).map (fun pr => (Json.num (pr.1 : Int), pr.2))
          else none

/-- Parse the elements of a nonempty JSON array, up to and including `]`. -/
def pElems : Nat → Bytes → Option (List Json × Bytes)
  | 0, _ => none
  | fuel + 1, l =>
      match pVal fuel l with
      | none => none
      | some (v, rest) =>
          match skipWs rest with
          | 44 :: rest2 => (pElems fuel rest2).map (fun pr => (v :: pr.1, pr.2))
          | 93 :: rest2 => some ([v], rest2)
          | _ => none

/-- Parse the members of a nonempty JSON object, up to and including the
closing brace. -/
def pFields : Nat → Bytes → Option (List (Bytes × Json) × Bytes)
  | 0, _ => none
  | fuel + 1, l =>
      match skipWs l with
      | 34 :: rest =>
          match pStr rest with
          | none => none
          | some (k, rest2) =>
              match skipWs rest2 with
              | 58 :: rest3 =>
                  match pVal fuel rest3 with
                  | none => none
                  | some (v, rest4) =>
                      match skipWs rest4 with
                      | 44 :: rest5 =>
                          (pFields fuel rest5).map (fun pr => ((k, v) :: pr.1, pr.2))
                      | 125 :: rest5 => some ([(k, v)], rest5)
                      | _ => none
              | _ => none
      | _ => none

end

/-- `sonic_rs::from_slice`: the whole body is one JSON document (possibly
followed by whitespace). -/
def parseJsonDoc (l : Bytes) : Option Json :=
  match pVal (l.length + 1) l with
  | some pr => if pr.2.all isWsByte then some pr.1 else none
  | none => none

/-! #### JSON serialization (model of `serde_json::to_string`). -/

def hexDigit (n : Nat) : Nat := if n < 10 then 48 + n else 87 + n

/-- serde_json string escaping for one byte: quote, backslash, the short
control escapes, `\u00XX` for other control bytes, all other bytes raw. -/
def escByte (b : Nat) : Bytes :=
  if b = 34 then [92, 34]
  else if b = 92 then [92, 92]
  else if b = 8 then [92, 98]
  else if b = 9 then [92, 116]
  else if b = 10 then [92, 110]
  else if b = 12 then [92, 102]
  else if b = 13 then [92, 114]
  else if b < 32 then [92, 117, 48, 48, hexDigit (b / 16), hexDigit (b % 16)]
  else [b]

def escBytes (l : Bytes) : Bytes := (l.map escByte).flatten

def serInt (n : Int) : Bytes :=
  if n < 0 then 45 :: natDigitsB n.natAbs else natDigitsB n.natAbs

mutual

def serJson : Json → Bytes
  | .null => [110, 117, 108, 108]
  | .boolean true => [116, 114, 117, 101]
  | .boolean false => [102, 97, 108, 115, 101]
  | .num n => serInt n
  | .str s => 34 :: (escBytes s ++ [34])
  | .arr xs => 91 :: (serElems xs ++ [93])
  | .obj fs => 123 :: (serFields fs ++ [125])

def serElems : List Json → Bytes
  | [] => []
  | [x] => serJson x
  | x :: xs => serJson x ++ (44 :: serElems xs)

def serFields : List (Bytes × Json) → Bytes
  | [] => []
  | [(k, v)] => (34 :: (escBytes k ++ [34])) ++ (58 :: serJson v)
  | (k, v) :: fs => (34 :: (escBytes k ++ [34])) ++ (58 :: serJson v) ++ (44 :: serFields fs)

end

/-! #### Frame header loop and whole-frame decode. -/

/-- A failed read attempt of `recv_server_message`. -/
inductive RecvErr where
  | streamClosed
  | headerUtf8
  | badContentLength
  | missingContentLength
  | bodyEof
  | bodyUtf8
  | badMessage
  | outOfFuel
deriving DecidableEq

/-- ASCII bytes of "Content-Length". -/
def contentLengthBytes : Bytes :=
  [67, 111, 110, 116, 101, 110, 116, 45, 76, 101, 110, 103, 116, 104]

/-- The header loop of `recv_server_message` (transport.rs lines 97-127):
read a line (clearing the line buffer first), stop at a blank `\r\n` line,
record a parsed `Content-Length` header, tolerate stray lines without a
`": "` delimiter, and treat an unparsable `Content-Length` value as fatal.
Returns the result, the remaining stream, and the final line buffer.  The
fuel always exceeds the stream length, and every iteration consumes at least
one byte, so the fuel case is unreachable from `recvServerMessage`. -/
def headerLoop : Nat → Bytes → Option Nat → Except RecvErr (Option Nat) × Bytes × Bytes
  | 0, stream, _ => (Except.error RecvErr.outOfFuel, stream, [])
  | fuel + 1, stream, cl =>
      let lr := readLineAux stream
      if lr.1 = [] then (Except.error RecvErr.streamClosed, lr.2, [])
      else if !(utf8Valid lr.1) then (Except.error RecvErr.headerUtf8, lr.2, [])
      else if lr.1 = [13, 10] then (Except.ok cl, lr.2, lr.1)
      else
        match splitOnce (trimBytes lr.1) with
        | some pr =>
            if pr.1 = contentLengthBytes then
              match parseUsize pr.2 with
              | some n => headerLoop fuel lr.2 (some n)
              | none => (Except.error RecvErr.badContentLength, lr.2, lr.1)
            else headerLoop fuel lr.2 cl
        | none => headerLoop fuel lr.2 cl

/-! #### Two-phase body classification.

The `Deserialize` shapes of `jsonrpc::Output` and `jsonrpc::Call` live in the
repository's `jsonrpc` module, which is not part of this source file; the
classification is modelled from the spec. -/

/-- ASCII bytes of "id". -/
def idKey : Bytes := [105, 100]

/-- ASCII bytes of "result". -/
def resultKey : Bytes := [114, 101, 115, 117, 108, 116]

/-- ASCII bytes of "error". -/
def errorKey : Bytes := [101, 114, 114, 111, 114]

/-- ASCII bytes of "method". -/
def methodKey : Bytes := [109, 101, 116, 104, 111, 100]

/-- ASCII bytes of "params". -/
def paramsKey : Bytes := [112, 97, 114, 97, 109, 115]

/-- ASCII bytes of "jsonrpc". -/
def jsonrpcKey : Bytes := [106, 115, 111, 110, 114, 112, 99]

/-- ASCII bytes of "2.0". -/
def version20 : Bytes := [50, 46, 48]

def hasFieldB (key : Bytes) (fields : List (Bytes × Json)) : Bool :=
  fields.any (fun kv => decide (kv.1 = key))

def getField (key : Bytes) (fields : List (Bytes × Json)) : Option Json :=
  (fields.find? (fun kv => decide (kv.1 = key))).map (fun kv => kv.2)

def parseJId : Option Json → Option JId
  | some Json.null => some JId.null
  | some (Json.num n) => some (JId.num n)
  | some (Json.str s) => some (JId.str s)
  | _ => none

def parseJParams : Option Json → Option JParams
  | none => some JParams.nothing
  | some Json.null => some JParams.nothing
  | some (Json.arr xs) => some (JParams.arr xs)
  | some (Json.obj fs) => some (JParams.map fs)
  | _ => none

/-- Modelled from the spec: the response shape of §4.1 — the body has an
`id` and a `result` or `error`, and no `method`. -/
def respShapeB (fields : List (Bytes × Json)) : Bool :=
  hasFieldB idKey fields && (hasFieldB resultKey fields || hasFieldB errorKey fields) &&
    !(hasFieldB methodKey fields)

/-- Modelled from the spec: the two-phase classification of a decoded body
(§4.1, §9): attempt the response shape first, otherwise the call shape
(`method` present, a request when `id` is present, else a notification); any
other shape is a fatal decode error (`none`).  The underlying `Deserialize`
implementations live in the repository's `jsonrpc` module, outside this
source file. -/
def parseSM (j : Json) : Option ServerMessage :=
  match j with
  | Json.obj fields =>
      if respShapeB fields then
        match parseJId (getField idKey fields) with
        | some id =>
            match getField resultKey fields with
            | some r => some (ServerMessage.output (Output.success id r))
            | none =>
                match getField errorKey fields with
                | some e => some (ServerMessage.output (Output.failure id e))
                | none => none
        | none => none
      else if hasFieldB methodKey fields then
        match getField methodKey fields with
        | some (Json.str m) =>
            match parseJParams (getField paramsKey fields) with
            | some ps =>
                if hasFieldB idKey fields then
                  match parseJId (getField idKey fields) with
                  | some id =>
                      some (ServerMessage.call (Call.methodCall
                        { id := id, method := m, params := ps }))
                  | none => none
                else some (ServerMessage.call (Call.notif { method := m, params := ps }))
            | none => none
        | _ => none
      else none
  | _ => none

/-- Decode one body: UTF-8 check, JSON parse, two-phase classification. -/
def bodyDecode (body : Bytes) : Except RecvErr ServerMessage :=
  if !(utf8Valid body) then Except.error RecvErr.bodyUtf8
  else
    match parseJsonDoc body with
    | some j =>
        match parseSM j with
        | some m => Except.ok m
        | none => Except.error RecvErr.badMessage
    | none => Except.error RecvErr.badMessage

/-- `recv_server_message` (transport.rs lines 90-142): run the header loop,
require a `Content-Length`, read exactly that many body bytes (fewer before
end of stream is fatal), check UTF-8, parse and classify.  Returns the
result, the remaining stream, the final line buffer, and the final content
buffer — the content buffer is cleared only on success (line 139). -/
def recvServerMessage (stream buffer content : Bytes) :
    Except RecvErr ServerMessage × Bytes × Bytes × Bytes :=
  match headerLoop (stream.length + 1) stream none with
  | (Except.error e, rest, buf) => (Except.error e, rest, buf, content)
  | (Except.ok cl, rest, buf) =>
      match cl with
      | none => (Except.error RecvErr.missingContentLength, rest, buf, content)
      | some n =>
          if rest.length < n then
            (Except.error RecvErr.bodyEof, [], buf,
              rest ++ List.replicate (n - rest.length) 0)
          else
            match bodyDecode (rest.take n) with
            | Except.ok m => (Except.ok m, rest.drop n, buf, [])
            | Except.error e => (Except.error e, rest.drop n, buf, rest.take n)

/-- The header bytes written by `send_string_to_server` for a body of `n`
bytes: `Content-Length: <n>\r\n\r\n` (transport.rs lines 188-190). -/
def mkFrameHdr (n : Nat) : Bytes :=
  contentLengthBytes ++ [58, 32] ++ natDigitsB n ++ [13, 10, 13, 10]

/-- `send_string_to_server` (transport.rs lines 179-198): the exact bytes
written to the wire for one serialized body. -/
def sendStringToServer (request : Bytes) : Bytes :=
  mkFrameHdr request.length ++ request

def jsonOfJId : JId → Json
  | JId.null => Json.null
  | JId.num n => Json.num n
  | JId.str s => Json.str s

def jsonOfJParams : JParams → Json
  | JParams.nothing => Json.null
  | JParams.arr xs => Json.arr xs
  | JParams.map fs => Json.obj fs

/-- Modelled from the spec (§6 wire format): the serialized object shape of a
`MethodCall` under `serde_json::to_string`, with the struct's field order;
the serde implementation lives outside this source file. -/
def jsonOfMethodCall (m : MethodCall) : Json :=
  Json.obj [(jsonrpcKey, Json.str version20), (methodKey, Json.str m.method),
    (paramsKey, jsonOfJParams m.params), (idKey, jsonOfJId m.id)]

/-- The serialized body bytes of a request payload. -/
def serMethodCall (m : MethodCall) : Bytes := serJson (jsonOfMethodCall m)

instance {e a : Type} [DecidableEq e] [DecidableEq a] : DecidableEq (Except e a)
  | .ok x, .ok y =>
      if h : x = y then .isTrue (by rw [h]) else .isFalse (by simp [h])
  | .ok _, .error _ => .isFalse (fun h => Except.noConfusion h)
  | .error _, .ok _ => .isFalse (fun h => Except.noConfusion h)
  | .error x, .error y =>
      if h : x = y then .isTrue (by rw [h]) else .isFalse (by simp [h])

/-- Whether a byte string may legally follow a serialized number. -/
def sepOk : Bytes → Bool
  | [] => true
  | b :: _ => !(isDigit b) && !(b == 46) && !(b == 101) && !(b == 69)

/-! ### Claim C7 -/

/-- Claim C7 as stated: after every invocation of the frame decode, success
or error, both decode buffers come back cleared. -/
def C7Claim : Prop :=
  ∀ stream buffer content : Bytes,
    (recvServerMessage stream buffer content).2.2.1 = [] ∧
    (recvServerMessage stream buffer content).2.2.2 = []

theorem run_append (a b : List Event) (s : TState) :
    run s (a ++ b) = (run s a).bind (fun s1 => run s1 b) := by
  induction a generalizing s with
  | nil => simp [run]
  | cons e a ih =>
      simp only [List.cons_append, run]
      cases step s e with
      | none => simp
      | some s1 => simpa using ih s1

/-! ### Frame lemmas about single operations -/

theorem sendPayload_spec (s : TState) (p : Payload) :
    (sendPayload s p).wire = s.wire ++ [p] ∧
    (sendPayload s p).isPending = s.isPending ∧
    (sendPayload s p).readerAlive = s.readerAlive ∧
    (sendPayload s p).writerAlive = s.writerAlive ∧
    (sendPayload s p).pendingMessages = s.pendingMessages ∧
    (sendPayload s p).inbound = s.inbound ∧
    (sendPayload s p).deliveries = s.deliveries ∧
    (sendPayload s p).removals = s.removals := by
  cases p <;> simp [sendPayload]

theorem foldl_sendPayload_spec (L : List Payload) (s : TState) :
    (L.foldl sendPayload s).wire = s.wire ++ L ∧
    (L.foldl sendPayload s).isPending = s.isPending ∧
    (L.foldl sendPayload s).readerAlive = s.readerAlive ∧
    (L.foldl sendPayload s).writerAlive = s.writerAlive ∧
    (L.foldl sendPayload s).pendingMessages = s.pendingMessages ∧
    (L.foldl sendPayload s).inbound = s.inbound ∧
    (L.foldl sendPayload s).deliveries = s.deliveries ∧
    (L.foldl sendPayload s).removals = s.removals := by
  induction L generalizing s with
  | nil => simp
  | cons p L ih =>
      have h := sendPayload_spec s p
      have h2 := ih (sendPayload s p)
      simp only [List.foldl_cons]
      refine ⟨?_, ?_, ?_, ?_, ?_, ?_, ?_, ?_⟩ <;>
        simp_all [List.append_assoc]

theorem processOutput_frame (s : TState) (o : Output) :
    (processOutput s o).wire = s.wire ∧
    (processOutput s o).isPending = s.isPending ∧
    (processOutput s o).readerAlive = s.readerAlive ∧
    (processOutput s o).writerAlive = s.writerAlive ∧
    (processOutput s o).pendingMessages = s.pendingMessages ∧
    (processOutput s o).inbound = s.inbound ∧
    (processOutput s o).insertions = s.insertions := by
  unfold processOutput
  cases tableFind (outputId o) s.pending <;> simp

/-- Once the Writer/Dispatcher task has exited, no event revives it, nothing
more is ever written to the wire, and the gate and deferred queue are frozen. -/
theorem run_writerDead (evs : List Event) (s0 s : TState)
    (h0 : s0.writerAlive = false) (hrun : run s0 evs = some s) :
    s.writerAlive = false ∧ s.wire = s0.wire ∧ s.isPending = s0.isPending ∧
    s.pendingMessages = s0.pendingMessages ∧ s.insertions = s0.insertions := by
  induction evs generalizing s0 with
  | nil =>
      simp only [run, Option.some.injEq] at hrun
      subst hrun
      exact ⟨h0, rfl, rfl, rfl, rfl⟩
  | cons e evs ih =>
      simp only [run] at hrun
      cases e with
      | readMsg m =>
          cases hra : s0.readerAlive with
          | false => simp [step, hra] at hrun
          | true =>
              cases m with
              | output o =>
                  simp only [step, hra, if_true] at hrun
                  have hf := processOutput_frame s0 o
                  have := ih (processOutput s0 o) (by simp_all) hrun
                  simp_all
              | call c =>
                  simp only [step, hra, if_true] at hrun
                  have := ih _ (by simp_all) hrun
                  simp_all
      | readClosed =>
          cases hra : s0.readerAlive with
          | false => simp [step, hra] at hrun
          | true =>
              simp only [step, hra, if_true] at hrun
              have := ih _ (by simp_all) hrun
              simp_all
      | notifyInit => simp [step, h0] at hrun
      | sendMsg p => simp [step, h0] at hrun
      | chanClosed => simp [step, h0] at hrun

/-- Once the Reader task has exited, no event revives it and neither the
pending-table removal log nor the completion-delivery log ever grows again. -/
theorem run_readerDead (evs : List Event) (s0 s : TState)
    (h0 : s0.readerAlive = false) (hrun : run s0 evs = some s) :
    s.readerAlive = false ∧ s.removals = s0.removals ∧ s.deliveries = s0.deliveries := by
  induction evs generalizing s0 with
  | nil =>
      simp only [run, Option.some.injEq] at hrun
      subst hrun
      exact ⟨h0, rfl, rfl⟩
  | cons e evs ih =>
      simp only [run] at hrun
      cases e with
      | readMsg m => simp [step, h0] at hrun
      | readClosed => simp [step, h0] at hrun
      | notifyInit =>
          cases hwa : s0.writerAlive with
          | false => simp [step, hwa] at hrun
          | true =>
              cases hp : s0.isPending with
              | false => simp [step, hwa, hp] at hrun
              | true =>
                  simp only [step, hwa, hp, Bool.and_self, if_true] at hrun
                  have hf := foldl_sendPayload_spec s0.pendingMessages
                    { s0 with isPending := false,
                              inbound := s0.inbound ++ [initializedCall],
                              pendingMessages := [] }
                  have := ih _ (by simp_all) hrun
                  simp_all
      | sendMsg p =>
          cases hwa : s0.writerAlive with
          | false => simp [step, hwa] at hrun
          | true =>
              simp only [step, hwa, if_true] at hrun
              by_cases hsd : (s0.isPending && is_shutdown p) = true
              · simp only [hsd, if_true] at hrun
                have := ih _ (by simp_all) hrun
                simp_all
              · simp only [hsd, if_false] at hrun
                by_cases hni : (s0.isPending && !( is_initialize p)) = true
                · simp only [hni, if_true] at hrun
                  cases p with
                  | notif n =>
                      have := ih _ (by simp_all) hrun
                      simp_all
                  | request chan v =>
                      have := ih _ (by simp_all) hrun
                      simp_all
                  | response o =>
                      have := ih _ (by simp_all) hrun
                      simp_all
                · simp only [hni, if_false] at hrun
                  have hf := sendPayload_spec s0 p
                  have := ih _ (by simp_all) hrun
                  simp_all
      | chanClosed =>
          cases hwa : s0.writerAlive with
          | false => simp [step, hwa] at hrun
          | true =>
              simp only [step, hwa, if_true] at hrun
              have := ih _ (by simp_all) hrun
              simp_all

theorem nodup_of_count_eq {α : Type} [DecidableEq α] (l l2 : List α)
    (h : ∀ x, l2.count x = l.count x) (hl : l.Nodup) : l2.Nodup := by
  rw [List.nodup_iff_count_le_one] at *
  intro a
  rw [h a]
  exact hl a

theorem tableErase_eq_self (id : JId) (t : List (JId × Nat))
    (h : id ∉ t.map Prod.fst) : tableErase id t = t := by
  unfold tableErase
  rw [List.filter_eq_self]
  intro e he
  have hne : e.1 ≠ id := by
    intro hh
    exact h (by rw [← hh]; exact List.mem_map_of_mem Prod.fst he)
  simp [hne]

theorem tableFind_decomp (id : JId) (c : Nat) (t : List (JId × Nat))
    (hnodup : (t.map Prod.fst).Nodup)
    (h : tableFind id t = some c) :
    ∃ l1 l2, t = l1 ++ (id, c) :: l2 ∧ tableErase id t = l1 ++ l2 := by
  induction t with
  | nil => simp [tableFind] at h
  | cons e t ih =>
      obtain ⟨e1, e2⟩ := e
      by_cases he : e1 = id
      · subst he
        have hc : c = e2 := by
          simp [tableFind, List.find?] at h
          exact h.symm
        subst hc
        have hnotin : e1 ∉ t.map Prod.fst := by
          simp only [List.map_cons, List.nodup_cons] at hnodup
          exact hnodup.1
        refine ⟨[], t, by simp, ?_⟩
        simp only [List.nil_append]
        unfold tableErase
        simp only [List.filter_cons, decide_eq_true_eq]
        rw [if_neg (by simp)]
        exact tableErase_eq_self e1 t hnotin
      · have hskip : tableFind id ((e1, e2) :: t) = tableFind id t := by
          simp [tableFind, List.find?, he]
        rw [hskip] at h
        have hnodup2 : (t.map Prod.fst).Nodup := by
          simp only [List.map_cons, List.nodup_cons] at hnodup
          exact hnodup.2
        obtain ⟨l1, l2, ht, herase⟩ := ih hnodup2 h
        refine ⟨(e1, e2) :: l1, l2, by rw [ht]; simp, ?_⟩
        unfold tableErase at herase ⊢
        simp only [List.filter_cons, decide_eq_true_eq]
        rw [if_pos (by simp [he])]
        rw [herase]
        simp

/-- Draining a payload list through `send_payload_to_server` preserves the
pending-table discipline: deferred request pairs move into the table, and the
removal log is untouched. -/
theorem foldl_sendPayload_good : ∀ (L : List Payload) (t : TState),
    (∀ x, t.insertions.count x =
      t.removals.count x + (t.pending.map Prod.snd).count x) →
    (t.removals ++ t.pending.map Prod.snd ++ (defReqPairs L).map Prod.snd).Nodup →
    (t.pending.map Prod.fst ++ (defReqPairs L).map Prod.fst).Nodup →
    (∀ x, (L.foldl sendPayload t).insertions.count x =
        (L.foldl sendPayload t).removals.count x +
        ((L.foldl sendPayload t).pending.map Prod.snd).count x) ∧
    ((L.foldl sendPayload t).removals ++
      (L.foldl sendPayload t).pending.map Prod.snd).Nodup ∧
    ((L.foldl sendPayload t).pending.map Prod.fst).Nodup ∧
    (L.foldl sendPayload t).pending.map Prod.snd ⊆
      t.pending.map Prod.snd ++ (defReqPairs L).map Prod.snd ∧
    (L.foldl sendPayload t).pending.map Prod.fst ⊆
      t.pending.map Prod.fst ++ (defReqPairs L).map Prod.fst ∧
    (L.foldl sendPayload t).removals = t.removals := by
  intro L
  induction L with
  | nil =>
      intro t hcount hnodup hids
      refine ⟨hcount, ?_, ?_, ?_, ?_, rfl⟩
      · simp only [List.foldl_nil]
        have : List.Sublist (t.removals ++ t.pending.map Prod.snd)
            (t.removals ++ t.pending.map Prod.snd ++
              (defReqPairs []).map Prod.snd) := by
          simp [defReqPairs]
        exact hnodup.sublist this
      · simp only [List.foldl_nil]
        have : List.Sublist (t.pending.map Prod.fst)
            (t.pending.map Prod.fst ++ (defReqPairs []).map Prod.fst) := by
          simp [defReqPairs]
        exact hids.sublist this
      · simp
      · simp
  | cons p L ih =>
      intro t hcount hnodup hids
      cases p with
      | notif n =>
          have hdef : defReqPairs (Payload.notif n :: L) = defReqPairs L := by
            simp [defReqPairs]
          rw [hdef] at hnodup hids
          have := ih (sendPayload t (Payload.notif n))
            (by simpa [sendPayload] using hcount)
            (by simpa [sendPayload] using hnodup)
            (by simpa [sendPayload] using hids)
          simpa [hdef, sendPayload] using this
      | response o =>
          have hdef : defReqPairs (Payload.response o :: L) = defReqPairs L := by
            simp [defReqPairs]
          rw [hdef] at hnodup hids
          have := ih (sendPayload t (Payload.response o))
            (by simpa [sendPayload] using hcount)
            (by simpa [sendPayload] using hnodup)
            (by simpa [sendPayload] using hids)
          simpa [hdef, sendPayload] using this
      | request chan v =>
          have hdef : defReqPairs (Payload.request chan v :: L)
              = (v.id, chan) :: defReqPairs L := by
            simp [defReqPairs]
          rw [hdef] at hnodup hids
          have hidfresh : v.id ∉ t.pending.map Prod.fst := by
            rw [List.nodup_append] at hids
            intro hmem
            exact hids.2.2 hmem (by simp)
          have t1eq : sendPayload t (Payload.request chan v) =
              { t with pending := t.pending ++ [(v.id, chan)],
                       insertions := t.insertions ++ [chan],
                       wire := t.wire ++ [Payload.request chan v] } := by
            simp [sendPayload, tableInsert, tableErase_eq_self v.id t.pending hidfresh]
          set t1 := sendPayload t (Payload.request chan v) with ht1
          have hc1 : ∀ x, t1.insertions.count x =
              t1.removals.count x + (t1.pending.map Prod.snd).count x := by
            intro x
            rw [t1eq]
            simp only [List.map_append, List.count_append, List.map_cons,
              List.map_nil]
            rw [hcount x]
            ring
          have hn1 : (t1.removals ++ t1.pending.map Prod.snd ++
              (defReqPairs L).map Prod.snd).Nodup := by
            rw [t1eq]
            simp only [List.map_append, List.map_cons, List.map_nil] at hnodup ⊢
            simpa [List.append_assoc] using hnodup
          have hi1 : (t1.pending.map Prod.fst ++
              (defReqPairs L).map Prod.fst).Nodup := by
            rw [t1eq]
            simp only [List.map_append, List.map_cons, List.map_nil] at hids ⊢
            simpa [List.append_assoc] using hids
          have hrec := ih t1 hc1 hn1 hi1
          have hfold : (Payload.request chan v :: L).foldl sendPayload t
              = L.foldl sendPayload t1 := by
            simp [ht1]
          rw [hfold, hdef]
          refine ⟨hrec.1, hrec.2.1, hrec.2.2.1, ?_, ?_, ?_⟩
          · intro x hx
            have := hrec.2.2.2.1 hx
            rw [t1eq] at this
            simp only [List.map_append, List.map_cons, List.map_nil,
              List.mem_append, List.mem_cons] at this ⊢
            tauto
          · intro x hx
            have := hrec.2.2.2.2.1 hx
            rw [t1eq] at this
            simp only [List.map_append, List.map_cons, List.map_nil,
              List.mem_append, List.mem_cons] at this ⊢
            tauto
          · rw [hrec.2.2.2.2.2, t1eq]

/-- One step preserves the pending-table discipline, provided the (id, token)
pairs of any request the event carries are fresh. -/
theorem step_good (s s1 : TState) (e : Event)
    (hg : GoodState s)
    (hstep : step s e = some s1)
    (hfresh : ∀ pr ∈ eventReqPairs e, pr.2 ∉ stateTokens s ∧ pr.1 ∉ stateIds s) :
    GoodState s1 ∧
    stateTokens s1 ⊆ stateTokens s ++ (eventReqPairs e).map Prod.snd ∧
    stateIds s1 ⊆ stateIds s ++ (eventReqPairs e).map Prod.fst := by
  cases e with
  | readMsg m =>
      cases hra : s.readerAlive with
      | false => simp [step, hra] at hstep
      | true =>
          cases m with
          | call c =>
              simp only [step, hra, if_true, Option.some.injEq] at hstep
              subst hstep
              exact ⟨hg, by simp [eventReqPairs, stateTokens],
                by simp [eventReqPairs, stateIds]⟩
          | output o =>
              simp only [step, hra, if_true, Option.some.injEq] at hstep
              subst hstep
              cases hfind : tableFind (outputId o) s.pending with
              | none =>
                  have hpo : processOutput s o = s := by
                    simp [processOutput, hfind]
                  rw [hpo]
                  exact ⟨hg, by simp [eventReqPairs], by simp [eventReqPairs]⟩
              | some c =>
                  have hpendIds : (s.pending.map Prod.fst).Nodup :=
                    ((List.nodup_append).1 hg.2.2).1
                  obtain ⟨l1, l2, ht, herase⟩ :=
                    tableFind_decomp (outputId o) c s.pending hpendIds hfind
                  have hpo : processOutput s o =
                      { s with pending := l1 ++ l2,
                               removals := s.removals ++ [c],
                               deliveries := s.deliveries ++ [(c, outputRes o)] } := by
                    simp [processOutput, hfind, herase]
                  rw [hpo]
                  refine ⟨⟨?_, ?_, ?_⟩, ?_, ?_⟩
                  · intro x
                    have hc := hg.1 x
                    rw [ht] at hc
                    rw [hc]
                    simp only [List.map_append, List.map_cons, List.count_append,
                      List.count_cons, List.count_nil]
                    ring
                  · apply nodup_of_count_eq (stateTokens s)
                    · intro x
                      simp only [stateTokens, ht, List.map_append, List.map_cons,
                        List.count_append, List.count_cons, List.count_nil]
                      ring
                    · exact hg.2.1
                  · have hsub : List.Sublist
                        ((l1 ++ l2).map Prod.fst ++
                          (defReqPairs s.pendingMessages).map Prod.fst)
                        (stateIds s) := by
                      unfold stateIds
                      rw [ht]
                      exact (((List.sublist_cons_self ((outputId o), c) l2).append_left
                        l1).map Prod.fst).append_right _
                    exact hg.2.2.sublist hsub
                  · intro x hx
                    simp only [stateTokens, ht, eventReqPairs, List.map_append,
                      List.map_cons, List.map_nil, List.mem_append, List.mem_cons,
                      List.append_nil, List.mem_singleton, List.not_mem_nil] at hx ⊢
                    tauto
                  · intro x hx
                    simp only [stateIds, ht, eventReqPairs, List.map_append,
                      List.map_cons, List.map_nil, List.mem_append, List.mem_cons,
                      List.append_nil, List.mem_singleton, List.not_mem_nil] at hx ⊢
                    tauto
  | readClosed =>
      cases hra : s.readerAlive with
      | false => simp [step, hra] at hstep
      | true =>
          simp only [step, hra, if_true, Option.some.injEq] at hstep
          subst hstep
          refine ⟨⟨?_, ?_, ?_⟩, ?_, ?_⟩
          · intro x
            have hc := hg.1 x
            simp only [List.map_nil, List.count_append, List.count_nil]
            rw [hc]
            have : (s.pending.map (fun e => e.2)) = s.pending.map Prod.snd := rfl
            rw [this]
            ring
          · apply nodup_of_count_eq (stateTokens s)
            · intro x
              simp only [stateTokens, List.map_nil, List.count_append, List.count_nil]
              have : (s.pending.map (fun e => e.2)) = s.pending.map Prod.snd := rfl
              rw [this]
              ring
            · exact hg.2.1
          · have hsub : List.Sublist
                (([] : List (JId × Nat)).map Prod.fst ++
                  (defReqPairs s.pendingMessages).map Prod.fst)
                (stateIds s) := by
              simp only [List.map_nil, List.nil_append]
              unfold stateIds
              exact List.sublist_append_right _ _
            exact hg.2.2.sublist hsub
          · intro x hx
            simp only [stateTokens, eventReqPairs, List.map_nil, List.mem_append,
              List.append_nil, List.not_mem_nil, List.mem_map] at hx ⊢
            tauto
          · intro x hx
            simp only [stateIds, eventReqPairs, List.map_nil, List.mem_append,
              List.append_nil, List.not_mem_nil] at hx ⊢
            tauto
  | notifyInit =>
      cases hcond : (s.writerAlive && s.isPending) with
      | false => simp [step, hcond] at hstep
      | true =>
          simp only [step, hcond, if_true, Option.some.injEq] at hstep
          have hfold := foldl_sendPayload_good s.pendingMessages
            { s with isPending := false,
                     inbound := s.inbound ++ [initializedCall],
                     pendingMessages := [] }
            (hg.1) (hg.2.1) (hg.2.2)
          have hpm := foldl_sendPayload_spec s.pendingMessages
            { s with isPending := false,
                     inbound := s.inbound ++ [initializedCall],
                     pendingMessages := [] }
          rw [hstep] at hfold hpm
          have hpmnil : s1.pendingMessages = [] := hpm.2.2.2.2.1
          have htoks : stateTokens s1 = s1.removals ++ s1.pending.map Prod.snd := by
            unfold stateTokens
            rw [hpmnil]
            simp [defReqPairs]
          have hids2 : stateIds s1 = s1.pending.map Prod.fst := by
            unfold stateIds
            rw [hpmnil]
            simp [defReqPairs]
          refine ⟨⟨hfold.1, ?_, ?_⟩, ?_, ?_⟩
          · rw [htoks]; exact hfold.2.1
          · rw [hids2]; exact hfold.2.2.1
          · intro x hx
            rw [htoks] at hx
            simp only [eventReqPairs, List.map_nil, List.append_nil]
            rcases List.mem_append.1 hx with hx | hx
            · rw [hfold.2.2.2.2.2] at hx
              unfold stateTokens
              exact List.mem_append_left _ (List.mem_append_left _ hx)
            · have := hfold.2.2.2.1 hx
              unfold stateTokens
              rcases List.mem_append.1 this with h2 | h2
              · exact List.mem_append_left _ (List.mem_append_right _ h2)
              · exact List.mem_append_right _ h2
          · intro x hx
            rw [hids2] at hx
            simp only [eventReqPairs, List.map_nil, List.append_nil]
            have := hfold.2.2.2.2.1 hx
            unfold stateIds
            exact this
  | sendMsg p =>
      cases hwa : s.writerAlive with
      | false => simp [step, hwa] at hstep
      | true =>
          simp only [step, hwa, if_true] at hstep
          cases hsd : (s.isPending && is_shutdown p) with
          | true =>
            simp only [hsd, if_true, Option.some.injEq] at hstep
            subst hstep
            exact ⟨hg, List.subset_append_left _ _, List.subset_append_left _ _⟩
          | false =>
            simp only [hsd, Bool.false_eq_true, if_false] at hstep
            cases hni : (s.isPending && !( is_initialize p)) with
            | true =>
              simp only [hni, if_true] at hstep
              cases p with
              | notif n =>
                  replace hstep : some s = some s1 := hstep
                  injection hstep with hstep
                  subst hstep
                  exact ⟨hg, List.subset_append_left _ _, List.subset_append_left _ _⟩
              | request chan v =>
                  replace hstep : some
                      { s with
                          pendingMessages := s.pendingMessages ++ [Payload.request chan v],
                          writerAlive := true } = some s1 := hstep
                  injection hstep with hstep
                  subst hstep
                  have hfr := hfresh (v.id, chan) (by simp [eventReqPairs])
                  have htoks : stateTokens
                      { s with
                          pendingMessages := s.pendingMessages ++ [Payload.request chan v],
                          writerAlive := true }
                      = stateTokens s ++ [chan] := by
                    simp [stateTokens, defReqPairs, List.filterMap_append,
                      List.append_assoc]
                  have hids2 : stateIds
                      { s with
                          pendingMessages := s.pendingMessages ++ [Payload.request chan v],
                          writerAlive := true }
                      = stateIds s ++ [v.id] := by
                    simp [stateIds, defReqPairs, List.filterMap_append,
                      List.append_assoc]
                  refine ⟨⟨hg.1, ?_, ?_⟩, ?_, ?_⟩
                  · rw [htoks]
                    exact List.nodup_append.2 ⟨hg.2.1, by simp,
                      fun a ha hb => by
                        simp only [List.mem_singleton] at hb
                        subst hb
                        exact hfr.1 ha⟩
                  · rw [hids2]
                    exact List.nodup_append.2 ⟨hg.2.2, by simp,
                      fun a ha hb => by
                        simp only [List.mem_singleton] at hb
                        subst hb
                        exact hfr.2 ha⟩
                  · rw [htoks]
                    simp [eventReqPairs]
                  · rw [hids2]
                    simp [eventReqPairs]
              | response o =>
                  replace hstep : some
                      { s with
                          pendingMessages := s.pendingMessages ++ [Payload.response o],
                          writerAlive := true } = some s1 := hstep
                  injection hstep with hstep
                  subst hstep
                  have htoks : stateTokens
                      { s with
                          pendingMessages := s.pendingMessages ++ [Payload.response o],
                          writerAlive := true }
                      = stateTokens s := by
                    simp [stateTokens, defReqPairs, List.filterMap_append]
                  have hids2 : stateIds
                      { s with
                          pendingMessages := s.pendingMessages ++ [Payload.response o],
                          writerAlive := true }
                      = stateIds s := by
                    simp [stateIds, defReqPairs, List.filterMap_append]
                  refine ⟨⟨hg.1, ?_, ?_⟩, ?_, ?_⟩
                  · rw [htoks]; exact hg.2.1
                  · rw [hids2]; exact hg.2.2
                  · rw [htoks]; exact List.subset_append_left _ _
                  · rw [hids2]; exact List.subset_append_left _ _
            | false =>
              simp only [hni, Bool.false_eq_true, if_false, Option.some.injEq] at hstep
              subst hstep
              cases p with
              | notif n =>
                  exact ⟨hg, by simp [sendPayload, eventReqPairs, stateTokens],
                    by simp [sendPayload, eventReqPairs, stateIds]⟩
              | response o =>
                  exact ⟨hg, by simp [sendPayload, eventReqPairs, stateTokens],
                    by simp [sendPayload, eventReqPairs, stateIds]⟩
              | request chan v =>
                  have hfr := hfresh (v.id, chan) (by simp [eventReqPairs])
                  have hidp : v.id ∉ s.pending.map Prod.fst := by
                    intro hmem
                    exact hfr.2 (List.mem_append_left _ hmem)
                  have hsp : sendPayload s (Payload.request chan v) =
                      { s with pending := s.pending ++ [(v.id, chan)],
                               insertions := s.insertions ++ [chan],
                               wire := s.wire ++ [Payload.request chan v] } := by
                    simp [sendPayload, tableInsert,
                      tableErase_eq_self v.id s.pending hidp]
                  rw [hsp]
                  have hnodtoks : (stateTokens s ++ [chan]).Nodup :=
                    List.nodup_append.2 ⟨hg.2.1, by simp,
                      fun a ha hb => by
                        simp only [List.mem_singleton] at hb
                        subst hb
                        exact hfr.1 ha⟩
                  have hnodids : (stateIds s ++ [v.id]).Nodup :=
                    List.nodup_append.2 ⟨hg.2.2, by simp,
                      fun a ha hb => by
                        simp only [List.mem_singleton] at hb
                        subst hb
                        exact hfr.2 ha⟩
                  refine ⟨⟨?_, ?_, ?_⟩, ?_, ?_⟩
                  · intro x
                    have hc := hg.1 x
                    simp only [List.map_append, List.map_cons, List.map_nil,
                      List.count_append, List.count_cons, List.count_nil]
                    rw [hc]
                    ring
                  · apply nodup_of_count_eq (stateTokens s ++ [chan])
                    · intro x
                      simp only [stateTokens, List.map_append, List.map_cons,
                        List.map_nil, List.count_append, List.count_cons,
                        List.count_nil]
                      ring
                    · exact hnodtoks
                  · apply nodup_of_count_eq (stateIds s ++ [v.id])
                    · intro x
                      simp only [stateIds, List.map_append, List.map_cons,
                        List.map_nil, List.count_append, List.count_cons,
                        List.count_nil]
                      ring
                    · exact hnodids
                  · intro x hx
                    simp only [stateTokens, eventReqPairs, List.map_append,
                      List.map_cons, List.map_nil, List.mem_append, List.mem_cons,
                      List.not_mem_nil, List.mem_singleton] at hx ⊢
                    tauto
                  · intro x hx
                    simp only [stateIds, eventReqPairs, List.map_append,
                      List.map_cons, List.map_nil, List.mem_append, List.mem_cons,
                      List.not_mem_nil, List.mem_singleton] at hx ⊢
                    tauto
  | chanClosed =>
      cases hwa : s.writerAlive with
      | false => simp [step, hwa] at hstep
      | true =>
          simp only [step, hwa, if_true, Option.some.injEq] at hstep
          subst hstep
          exact ⟨hg, by simp [eventReqPairs, stateTokens],
            by simp [eventReqPairs, stateIds]⟩

theorem traceReqPairs_append (a b : List Event) :
    traceReqPairs (a ++ b) = traceReqPairs a ++ traceReqPairs b := by
  simp [traceReqPairs]

/-- Over any well-formed run, the pending-table discipline holds, and the
state's tokens and ids all come from the start state or the trace. -/
theorem run_good : ∀ (evs : List Event) (s0 s : TState),
    GoodState s0 →
    run s0 evs = some s →
    (stateTokens s0 ++ (traceReqPairs evs).map Prod.snd).Nodup →
    (stateIds s0 ++ (traceReqPairs evs).map Prod.fst).Nodup →
    GoodState s ∧
    stateTokens s ⊆ stateTokens s0 ++ (traceReqPairs evs).map Prod.snd ∧
    stateIds s ⊆ stateIds s0 ++ (traceReqPairs evs).map Prod.fst := by
  intro evs
  induction evs with
  | nil =>
      intro s0 s hg hrun ht hi
      simp only [run, Option.some.injEq] at hrun
      subst hrun
      exact ⟨hg, by simp [traceReqPairs], by simp [traceReqPairs]⟩
  | cons e evs ih =>
      intro s0 s hg hrun ht hi
      simp only [run] at hrun
      cases hstep : step s0 e with
      | none => rw [hstep] at hrun; simp at hrun
      | some s1 =>
          rw [hstep] at hrun
          have htp : traceReqPairs (e :: evs) = eventReqPairs e ++ traceReqPairs evs := by
            simp [traceReqPairs]
          rw [htp, List.map_append, ← List.append_assoc] at ht hi
          have htparts := (List.nodup_append).1 ht
          have hiparts := (List.nodup_append).1 hi
          have htparts2 := (List.nodup_append).1 htparts.1
          have hiparts2 := (List.nodup_append).1 hiparts.1
          have hfresh : ∀ pr ∈ eventReqPairs e,
              pr.2 ∉ stateTokens s0 ∧ pr.1 ∉ stateIds s0 := by
            intro pr hpr
            constructor
            · intro hmem
              exact htparts2.2.2 hmem (List.mem_map_of_mem Prod.snd hpr)
            · intro hmem
              exact hiparts2.2.2 hmem (List.mem_map_of_mem Prod.fst hpr)
          have hsg := step_good s0 s1 e hg hstep hfresh
          have ht1 : (stateTokens s1 ++ (traceReqPairs evs).map Prod.snd).Nodup :=
            List.nodup_append.2 ⟨hsg.1.2.1, htparts.2.1,
              fun a ha hb => htparts.2.2 (hsg.2.1 ha) hb⟩
          have hi1 : (stateIds s1 ++ (traceReqPairs evs).map Prod.fst).Nodup :=
            List.nodup_append.2 ⟨hsg.1.2.2, hiparts.2.1,
              fun a ha hb => hiparts.2.2 (hsg.2.2 ha) hb⟩
          have hrec := ih s1 s hsg.1 hrun ht1 hi1
          refine ⟨hrec.1, ?_, ?_⟩
          · intro x hx
            rw [htp, List.map_append, ← List.append_assoc]
            rcases List.mem_append.1 (hrec.2.1 hx) with hx2 | hx2
            · exact List.mem_append_left _ (hsg.2.1 hx2)
            · exact List.mem_append_right _ hx2
          · intro x hx
            rw [htp, List.map_append, ← List.append_assoc]
            rcases List.mem_append.1 (hrec.2.2 hx) with hx2 | hx2
            · exact List.mem_append_left _ (hsg.2.2 hx2)
            · exact List.mem_append_right _ hx2

/-- Claim C1 is false on the code: in the concrete execution `c1Trace` the
sender with token 0 is inserted into the pending table after the Reader's
termination drain and is never removed (its removal count is 0, not 1). -/
theorem c1_counterexample : ¬ C1Strong := by
  intro h
  have hw : WfTrace c1Trace := by decide
  have hrun : run initState c1Trace = some
      { pending := [(JId.num 1, 0)], pendingMessages := [], isPending := false,
        readerAlive := false, writerAlive := false,
        wire := [Payload.request 0
          { id := JId.num 1, method := [102, 111, 111], params := JParams.nothing }],
        inbound := [initializedCall, exitCall], deliveries := [],
        insertions := [0], removals := [] } := by rfl
  have h0 := h c1Trace _ hw hrun ⟨rfl, rfl⟩ 0 (by simp)
  simp [List.count_nil] at h0

/-- Claim C1 amended: over any well-formed execution, every completion sender
inserted into the pending table is removed at most once (so never both by a
response and by the drain); every sender inserted before the Reader's
termination drain is removed exactly once; and a sender not inserted before
the drain (in particular one inserted after it) is never removed.  `s1` is the
state right after the Reader's termination drain and `s2` any later state. -/
theorem c1_amended_removal_discipline (evs1 evs2 : List Event) (s1 s2 : TState)
    (hwf : WfTrace (evs1 ++ Event.readClosed :: evs2))
    (h1 : run initState (evs1 ++ [Event.readClosed]) = some s1)
    (h2 : run s1 evs2 = some s2) :
    (∀ c, s2.removals.count c ≤ 1) ∧
    (∀ c ∈ s1.insertions, s2.removals.count c = 1) ∧
    (∀ c, c ∉ s1.insertions → s2.removals.count c = 0) := by
  have hgi : GoodState initState := by
    refine ⟨fun x => by simp [initState], ?_, ?_⟩ <;>
      simp [stateTokens, stateIds, initState, defReqPairs]
  have htrace : traceReqPairs (evs1 ++ Event.readClosed :: evs2)
      = traceReqPairs evs1 ++ traceReqPairs evs2 := by
    rw [show evs1 ++ Event.readClosed :: evs2
        = evs1 ++ ([Event.readClosed] ++ evs2) from rfl]
    rw [traceReqPairs_append, traceReqPairs_append]
    simp [traceReqPairs, eventReqPairs]
  have hpre : traceReqPairs (evs1 ++ [Event.readClosed]) = traceReqPairs evs1 := by
    rw [traceReqPairs_append]
    simp [traceReqPairs, eventReqPairs]
  have hwf2 : ((traceReqPairs evs1 ++ traceReqPairs evs2).map Prod.fst).Nodup ∧
      ((traceReqPairs evs1 ++ traceReqPairs evs2).map Prod.snd).Nodup := by
    rw [← htrace]
    exact ⟨hwf.1, hwf.2⟩
  have hg1 := run_good (evs1 ++ [Event.readClosed]) initState s1 hgi h1
    (by
      rw [hpre]
      simp only [stateTokens, initState, defReqPairs, List.filterMap_nil,
        List.map_nil, List.append_nil, List.nil_append]
      exact (hwf2.2.sublist ((List.sublist_append_left _ _).map Prod.snd)))
    (by
      rw [hpre]
      simp only [stateIds, initState, defReqPairs, List.filterMap_nil,
        List.map_nil, List.append_nil, List.nil_append]
      exact (hwf2.1.sublist ((List.sublist_append_left _ _).map Prod.fst)))
  have hfull : run initState ((evs1 ++ [Event.readClosed]) ++ evs2) = some s2 := by
    rw [run_append, h1]
    simpa using h2
  have hg2 := run_good ((evs1 ++ [Event.readClosed]) ++ evs2) initState s2 hgi hfull
    (by
      rw [traceReqPairs_append, hpre]
      simp only [stateTokens, initState, defReqPairs, List.filterMap_nil,
        List.map_nil, List.append_nil, List.nil_append]
      exact hwf2.2)
    (by
      rw [traceReqPairs_append, hpre]
      simp only [stateIds, initState, defReqPairs, List.filterMap_nil,
        List.map_nil, List.append_nil, List.nil_append]
      exact hwf2.1)
  have hs1 : s1.pending = [] ∧ s1.readerAlive = false := by
    have h1' := h1
    rw [run_append] at h1'
    cases hmid : run initState evs1 with
    | none => rw [hmid] at h1'; simp at h1'
    | some smid =>
        rw [hmid] at h1'
        simp only [Option.bind, run] at h1'
        cases hra : smid.readerAlive with
        | false => simp [step, hra] at h1'
        | true =>
            simp only [step, hra, if_true] at h1'
            replace h1' : some
                { smid with
                    pending := [],
                    removals := smid.removals ++ smid.pending.map (fun e => e.2),
                    deliveries := smid.deliveries ++
                      smid.pending.map (fun e => (e.2, TRes.err TError.streamClosed)),
                    inbound := smid.inbound ++ [exitCall],
                    readerAlive := false } = some s1 := h1'
            injection h1' with h1'
            rw [← h1']
            exact ⟨rfl, rfl⟩
  have hfrozen := run_readerDead evs2 s1 s2 hs1.2 h2
  have hrem : s2.removals = s1.removals := hfrozen.2.1
  have hcnt1 : ∀ x, s1.insertions.count x = s1.removals.count x := by
    intro x
    have := hg1.1.1 x
    rw [hs1.1] at this
    simpa using this
  have hnod1 : s1.removals.Nodup :=
    ((List.nodup_append).1 ((List.nodup_append).1 hg1.1.2.1).1).1
  have hnod2 : s2.removals.Nodup :=
    ((List.nodup_append).1 ((List.nodup_append).1 hg2.1.2.1).1).1
  refine ⟨?_, ?_, ?_⟩
  · intro c
    exact List.nodup_iff_count_le_one.1 hnod2 c
  · intro c hc
    rw [hrem]
    have hle : s1.removals.count c ≤ 1 := List.nodup_iff_count_le_one.1 hnod1 c
    have hge : 0 < s1.removals.count c := by
      rw [← hcnt1]
      exact List.count_pos_iff.2 hc
    omega
  · intro c hc
    rw [hrem]
    have : s1.insertions.count c = 0 := List.count_eq_zero.2 hc
    rw [← hcnt1]
    exact this

theorem mem_earlyWrites (p : Payload) (evs : List Event)
    (h : p ∈ earlyWrites evs) : is_initialize p = true := by
  simp only [earlyWrites, List.mem_filterMap] at h
  obtain ⟨e, _, hm⟩ := h
  cases e with
  | sendMsg q =>
      by_cases hq : is_initialize q = true
      · simp only [hq, if_true, Option.some.injEq] at hm
        rw [← hm]; exact hq
      · simp [hq] at hm
  | readMsg m => simp at hm
  | readClosed => simp at hm
  | notifyInit => simp at hm
  | chanClosed => simp at hm

theorem mem_deferredOf (p : Payload) (evs : List Event)
    (h : p ∈ deferredOf evs) :
    is_initialize p = false ∧ ∀ n, p ≠ Payload.notif n := by
  simp only [deferredOf, List.mem_filterMap] at h
  obtain ⟨e, _, hm⟩ := h
  cases e with
  | sendMsg q =>
      by_cases hq : is_initialize q = true
      · simp [hq] at hm
      · simp only [Bool.not_eq_true] at hq
        cases q with
        | notif n => simp [hq] at hm
        | request chan v =>
            simp only [hq, Bool.false_eq_true, if_false, Option.some.injEq] at hm
            subst hm
            exact ⟨hq, by intro n h2; exact Payload.noConfusion h2⟩
        | response o =>
            simp only [hq, Bool.false_eq_true, if_false, Option.some.injEq] at hm
            subst hm
            exact ⟨hq, by intro n h2; exact Payload.noConfusion h2⟩
  | readMsg m => simp at hm
  | readClosed => simp at hm
  | notifyInit => simp at hm
  | chanClosed => simp at hm

/-- While the gate is Pending (no `notifyInit` yet) and the Writer is still
alive at the end, the gate stays Pending, the deferred queue accumulates
exactly the dequeued non-handshake requests and responses in FIFO order, and
the wire receives exactly the handshake's own messages. -/
theorem run_pending_phase : ∀ (evs : List Event) (s0 s : TState),
    Event.notifyInit ∉ evs →
    s0.isPending = true →
    run s0 evs = some s →
    s.writerAlive = true →
    s.isPending = true ∧
    s.pendingMessages = s0.pendingMessages ++ deferredOf evs ∧
    s.wire = s0.wire ++ earlyWrites evs := by
  intro evs
  induction evs with
  | nil =>
      intro s0 s hni hp0 hrun halive
      simp only [run, Option.some.injEq] at hrun
      subst hrun
      simp [deferredOf, earlyWrites, hp0]
  | cons e evs ih =>
      intro s0 s hni hp0 hrun halive
      have hni2 : Event.notifyInit ∉ evs := fun h => hni (List.mem_cons_of_mem _ h)
      simp only [run] at hrun
      cases e with
      | readMsg m =>
          cases hra : s0.readerAlive with
          | false => simp [step, hra] at hrun
          | true =>
              cases m with
              | output o =>
                  simp only [step, hra, if_true] at hrun
                  have hf := processOutput_frame s0 o
                  have hrec := ih (processOutput s0 o) s hni2 (by simp_all) hrun halive
                  simp only [deferredOf, earlyWrites, List.filterMap_cons] at *
                  simp_all [deferredOf, earlyWrites]
              | call c =>
                  simp only [step, hra, if_true] at hrun
                  have hrec := ih _ s hni2 (by simp [hp0]) hrun halive
                  simp_all [deferredOf, earlyWrites]
      | readClosed =>
          cases hra : s0.readerAlive with
          | false => simp [step, hra] at hrun
          | true =>
              simp only [step, hra, if_true] at hrun
              have hrec := ih _ s hni2 (by simp [hp0]) hrun halive
              simp_all [deferredOf, earlyWrites]
      | notifyInit => exact absurd (List.mem_cons_self _ _) hni
      | sendMsg p =>
          cases hwa : s0.writerAlive with
          | false => simp [step, hwa] at hrun
          | true =>
              simp only [step, hwa, if_true] at hrun
              by_cases hsd : is_shutdown p = true
              · simp only [hp0, hsd, Bool.and_self, if_true] at hrun
                have := run_writerDead evs _ s (by simp) hrun
                rw [halive] at this
                exact absurd this.1 (by simp)
              · simp only [Bool.not_eq_true] at hsd
                simp only [hp0, hsd, Bool.and_false, Bool.true_and, if_false] at hrun
                by_cases hinit : is_initialize p = true
                · simp only [hinit, Bool.not_true, if_false] at hrun
                  have hf := sendPayload_spec s0 p
                  have hrec := ih (sendPayload s0 p) s hni2 (by simp_all) hrun halive
                  refine ⟨hrec.1, ?_, ?_⟩
                  · rw [hrec.2.1, hf.2.2.2.2.1]
                    simp [deferredOf, List.filterMap_cons, hinit]
                  · rw [hrec.2.2, hf.1]
                    simp [earlyWrites, List.filterMap_cons, hinit, List.append_assoc]
                · simp only [Bool.not_eq_true] at hinit
                  simp only [hinit, Bool.not_false, if_true] at hrun
                  cases p with
                  | notif n =>
                      have hrec := ih s0 s hni2 hp0 hrun halive
                      refine ⟨hrec.1, ?_, ?_⟩
                      · rw [hrec.2.1]
                        simp [deferredOf, List.filterMap_cons, hinit]
                      · rw [hrec.2.2]
                        simp [earlyWrites, List.filterMap_cons, hinit]
                  | request chan v =>
                      have hrec := ih _ s hni2 (by simp [hp0]) hrun halive
                      refine ⟨hrec.1, ?_, ?_⟩
                      · rw [hrec.2.1]
                        simp [deferredOf, List.filterMap_cons, hinit, List.append_assoc]
                      · rw [hrec.2.2]
                        simp [earlyWrites, List.filterMap_cons, hinit]
                  | response o =>
                      have hrec := ih _ s hni2 (by simp [hp0]) hrun halive
                      refine ⟨hrec.1, ?_, ?_⟩
                      · rw [hrec.2.1]
                        simp [deferredOf, List.filterMap_cons, hinit, List.append_assoc]
                      · rw [hrec.2.2]
                        simp [earlyWrites, List.filterMap_cons, hinit]
      | chanClosed =>
          cases hwa : s0.writerAlive with
          | false => simp [step, hwa] at hrun
          | true =>
              simp only [step, hwa, if_true] at hrun
              have := run_writerDead evs _ s (by simp) hrun
              rw [halive] at this
              exact absurd this.1 (by simp)

/-- Once the gate is Ready it stays Ready, and every dequeued payload is
written to the wire immediately, in dequeue order. -/
theorem run_ready_phase (evs : List Event) (s0 s : TState)
    (hp0 : s0.isPending = false)
    (hrun : run s0 evs = some s) :
    s.isPending = false ∧ s.wire = s0.wire ++ sentOf evs := by
  induction evs generalizing s0 with
  | nil =>
      simp only [run, Option.some.injEq] at hrun
      subst hrun
      simp [sentOf, hp0]
  | cons e evs ih =>
      simp only [run] at hrun
      cases e with
      | readMsg m =>
          cases hra : s0.readerAlive with
          | false => simp [step, hra] at hrun
          | true =>
              cases m with
              | output o =>
                  simp only [step, hra, if_true] at hrun
                  have hf := processOutput_frame s0 o
                  have hrec := ih (processOutput s0 o) (by simp_all) hrun
                  simp_all [sentOf]
              | call c =>
                  simp only [step, hra, if_true] at hrun
                  have hrec := ih _ (by simp [hp0]) hrun
                  simp_all [sentOf]
      | readClosed =>
          cases hra : s0.readerAlive with
          | false => simp [step, hra] at hrun
          | true =>
              simp only [step, hra, if_true] at hrun
              have hrec := ih _ (by simp [hp0]) hrun
              simp_all [sentOf]
      | notifyInit =>
          simp [step, hp0] at hrun
      | sendMsg p =>
          cases hwa : s0.writerAlive with
          | false => simp [step, hwa] at hrun
          | true =>
              simp only [step, hwa, hp0, Bool.false_and, Bool.and_self,
                if_false, if_true] at hrun
              have hf := sendPayload_spec s0 p
              have hrec := ih (sendPayload s0 p) (by simp_all) hrun
              refine ⟨hrec.1, ?_⟩
              rw [hrec.2, hf.1]
              simp [sentOf, List.filterMap_cons, List.append_assoc]
      | chanClosed =>
          cases hwa : s0.writerAlive with
          | false => simp [step, hwa] at hrun
          | true =>
              simp only [step, hwa, if_true] at hrun
              have hrec := ih _ (by simp [hp0]) hrun
              simp_all [sentOf]

/-- Claim C2: over any execution that crosses the Ready transition, the wire
consists of (1) the handshake's own messages dequeued while Pending, then
(2) the deferred non-handshake requests and responses dequeued while Pending
in their FIFO dequeue order, then (3) every payload dequeued after the
transition, in order; non-handshake notifications dequeued while Pending
appear in neither Pending-phase segment of the wire. -/
theorem c2_handshake_gate_ordering (pre post : List Event) (s : TState)
    (hpre : Event.notifyInit ∉ pre)
    (hrun : run initState (pre ++ Event.notifyInit :: post) = some s) :
    s.wire = earlyWrites pre ++ deferredOf pre ++ sentOf post ∧
    (∀ p ∈ earlyWrites pre, is_initialize p = true) ∧
    (∀ p ∈ deferredOf pre, is_initialize p = false ∧ ∀ n, p ≠ Payload.notif n) ∧
    (∀ n, Payload.notif n ∉ deferredOf pre) := by
  rw [run_append] at hrun
  cases hmid : run initState pre with
  | none => rw [hmid] at hrun; simp at hrun
  | some smid =>
      rw [hmid] at hrun
      simp only [Option.bind_some, run] at hrun
      simp only [Option.bind] at hrun
      obtain ⟨snext, hs, hpost⟩ :
          ∃ snext, step smid Event.notifyInit = some snext ∧ run snext post = some s := by
        cases hs : step smid Event.notifyInit with
        | none => rw [hs] at hrun; exact absurd hrun (by simp)
        | some snext => rw [hs] at hrun; exact ⟨snext, rfl, hrun⟩
      have hcond : smid.writerAlive = true ∧ smid.isPending = true := by
        by_contra hc
        have hfalse : (smid.writerAlive && smid.isPending) = false := by
          cases hw : smid.writerAlive <;> cases hp : smid.isPending <;> simp_all
        simp [step, hfalse] at hs
      have hb : (smid.writerAlive && smid.isPending) = true := by
        rw [hcond.1, hcond.2]; rfl
      have hsnext : snext = smid.pendingMessages.foldl sendPayload
          { smid with isPending := false,
                      inbound := smid.inbound ++ [initializedCall],
                      pendingMessages := [] } := by
        simp only [step, hb, eq_self_iff_true, if_true, Option.some.injEq] at hs
        exact hs.symm
      have hpre2 := run_pending_phase pre initState smid hpre rfl hmid hcond.1
      have hbase := foldl_sendPayload_spec smid.pendingMessages
        { smid with isPending := false,
                    inbound := smid.inbound ++ [initializedCall],
                    pendingMessages := [] }
      have hready := run_ready_phase post snext s (by rw [hsnext]; exact hbase.2.1) hpost
      refine ⟨?_, fun p hp => mem_earlyWrites p pre hp,
        fun p hp => mem_deferredOf p pre hp, ?_⟩
      · rw [hready.2, hsnext, hbase.1]
        simp only [hpre2.2.1, hpre2.2.2]
        simp [initState, List.append_assoc]
      · intro n hn
        exact absurd rfl ((mem_deferredOf _ pre hn).2 n)

/-! ### Claim C3 -/

/-- Claim C3: in any execution, if the Writer/Dispatcher dequeues a
shutdown-method request while the handshake gate is still Pending, the
Writer/Dispatcher exits at once, nothing is written for that request, no
Writer event can ever run again, and nothing is ever written to the wire
afterwards by any event. -/
theorem c3_pending_shutdown_terminates (evs : List Event) (s : TState) (p : Payload)
    (hrun : run initState evs = some s)
    (hpend : s.isPending = true) (halive : s.writerAlive = true)
    (hsd : is_shutdown p = true) :
    step s (Event.sendMsg p) = some { s with writerAlive := false } ∧
    (∀ evs2 s2, run { s with writerAlive := false } evs2 = some s2 →
        s2.wire = s.wire ∧ s2.writerAlive = false) ∧
    (∀ q, step { s with writerAlive := false } (Event.sendMsg q) = none) ∧
    step { s with writerAlive := false } Event.notifyInit = none ∧
    step { s with writerAlive := false } Event.chanClosed = none := by
  refine ⟨?_, ?_, ?_, ?_, ?_⟩
  · simp [step, halive, hpend, hsd]
  · intro evs2 s2 h2
    have := run_writerDead evs2 _ s2 (by simp) h2
    exact ⟨this.2.1, this.1⟩
  · intro q; simp [step]
  · simp [step]
  · simp [step]

/-! ### Claim C4 -/

/-- Claim C4: when the Reader hits `StreamClosed` or a fatal decode error
(event `readClosed`) with K requests registered, the step empties the table,
delivers `Err(StreamClosed)` on each of the K registered completion channels
exactly once (no channel token gains more than one such delivery, none is
skipped), appends the synthesized "exit" notification to the inbound channel,
and the Reader exits. -/
theorem c4_drain_on_closure (s : TState)
    (halive : s.readerAlive = true)
    (hnodup : (s.pending.map Prod.snd).Nodup) :
    step s Event.readClosed =
      some { s with pending := [],
                    removals := s.removals ++ s.pending.map (fun e => e.2),
                    deliveries := s.deliveries ++
                      s.pending.map (fun e => (e.2, TRes.err TError.streamClosed)),
                    inbound := s.inbound ++ [exitCall],
                    readerAlive := false } ∧
    (∀ c ∈ s.pending.map Prod.snd,
      ((s.deliveries ++ s.pending.map (fun e => (e.2, TRes.err TError.streamClosed))).map
          Prod.fst).count c
        = (s.deliveries.map Prod.fst).count c + 1) ∧
    (∀ c, c ∉ s.pending.map Prod.snd →
      ((s.deliveries ++ s.pending.map (fun e => (e.2, TRes.err TError.streamClosed))).map
          Prod.fst).count c
        = (s.deliveries.map Prod.fst).count c) := by
  have hmaps : (s.pending.map (fun e => (e.2, TRes.err TError.streamClosed))).map Prod.fst
      = s.pending.map Prod.snd := by
    simp [List.map_map]
  refine ⟨?_, ?_, ?_⟩
  · simp [step, halive]
  · intro c hc
    rw [List.map_append, List.count_append, hmaps,
      List.count_eq_one_of_mem hnodup hc]
  · intro c hc
    rw [List.map_append, List.count_append, hmaps,
      List.count_eq_zero.mpr hc, Nat.add_zero]

/-! ### Claim C5 -/

/-- Claim C5: processing a response whose id has no entry in the pending
table is a complete no-op on the transport state (table, logs and task
liveness all unchanged) and the step succeeds, so the Reader loop continues. -/
theorem c5_stale_response_noop (s : TState) (o : Output)
    (halive : s.readerAlive = true)
    (habsent : tableFind (outputId o) s.pending = none) :
    step s (Event.readMsg (ServerMessage.output o)) = some s := by
  simp [step, halive, processOutput, habsent]

/-! ### Claim C9 -/

/-- Claim C9: a Failure response whose id matches a registered request
delivers the peer-reported error to that caller's completion channel as an
ordinary failure result, removes exactly that entry, and the step succeeds
with both tasks untouched (no termination sequence: liveness flags, inbound
log and wire are unchanged in the resulting state). -/
theorem c9_peer_error_is_ordinary (s : TState) (id : JId) (e : Json) (c : Nat)
    (halive : s.readerAlive = true)
    (hfound : tableFind id s.pending = some c) :
    step s (Event.readMsg (ServerMessage.output (Output.failure id e))) =
      some { s with pending := tableErase id s.pending,
                    removals := s.removals ++ [c],
                    deliveries := s.deliveries ++ [(c, TRes.err (TError.rpc e))] } := by
  simp [step, halive, processOutput, outputId, outputRes, hfound]

/-! ### Claim C10 -/

/-- Claim C10: a Response payload dequeued while the gate is Pending is
neither written, dropped, nor fatal: it is appended to the deferred queue,
all other state is unchanged (in particular the Writer stays alive), and on
the Ready transition the queue drains to the wire with the response in its
arrival position. -/
theorem c10_pending_response_deferred (s : TState) (o : Output)
    (halive : s.writerAlive = true) (hpend : s.isPending = true) :
    step s (Event.sendMsg (Payload.response o)) =
      some { s with pendingMessages := s.pendingMessages ++ [Payload.response o] } ∧
    (∃ s2, step { s with pendingMessages := s.pendingMessages ++ [Payload.response o] }
        Event.notifyInit = some s2 ∧
      s2.wire = s.wire ++ s.pendingMessages ++ [Payload.response o]) := by
  constructor
  · simp [step, halive, hpend, is_shutdown, is_initialize]
  · refine ⟨(s.pendingMessages ++ [Payload.response o]).foldl sendPayload
        { s with isPending := false,
                 inbound := s.inbound ++ [initializedCall],
                 pendingMessages := [] }, ?_, ?_⟩
    · simp [step, halive, hpend]
    · have hf := foldl_sendPayload_spec (s.pendingMessages ++ [Payload.response o])
        { s with isPending := false,
                 inbound := s.inbound ++ [initializedCall],
                 pendingMessages := [] }
      simp_all [List.append_assoc]

theorem natDigitsAux_eq : ∀ (fuel n : Nat), n ≤ fuel →
    natDigitsAux fuel n = (Nat.digits 10 n).reverse.map (fun d => d + 48) := by
  intro fuel
  induction fuel with
  | zero =>
      intro n h
      have : n = 0 := Nat.le_zero.1 h
      subst this
      simp [natDigitsAux]
  | succ f ih =>
      intro n h
      by_cases hn : n = 0
      · subst hn; simp [natDigitsAux]
      · have hpos : 0 < n := Nat.pos_of_ne_zero hn
        have hdiv : n / 10 < n := Nat.div_lt_self hpos (by norm_num)
        rw [natDigitsAux, if_neg hn]
        rw [Nat.digits_def' (by norm_num : 1 < 10) hpos]
        rw [ih (n / 10) (by omega)]
        simp [List.reverse_cons, Nat.add_comm]

theorem natDigitsB_eq (n : Nat) :
    natDigitsB n = if n = 0 then [48]
      else (Nat.digits 10 n).reverse.map (fun d => d + 48) := by
  unfold natDigitsB
  by_cases hn : n = 0
  · simp [hn]
  · rw [if_neg hn, if_neg hn, natDigitsAux_eq n n (Nat.le_refl n)]

set_option maxHeartbeats 1000000 in
theorem utf8Take_lt : ∀ (l r : Bytes), utf8Take l = some r → r.length < l.length := by
  intro l r h
  cases l with
  | nil => simp [utf8Take] at h
  | cons b l1 =>
      cases l1 with
      | nil =>
          simp only [utf8Take] at h
          split_ifs at h <;> simp_all <;> omega
      | cons c1 l2 =>
          cases l2 with
          | nil =>
              simp only [utf8Take] at h
              split_ifs at h <;> simp_all <;> omega
          | cons c2 l3 =>
              cases l3 with
              | nil =>
                  simp only [utf8Take] at h
                  split_ifs at h <;> simp_all <;> omega
              | cons c3 l4 =>
                  simp only [utf8Take] at h
                  split_ifs at h <;> simp_all <;> omega

theorem utf8ValidAux_congr : ∀ (f1 f2 : Nat) (l : Bytes),
    l.length ≤ f1 → l.length ≤ f2 → utf8ValidAux f1 l = utf8ValidAux f2 l := by
  intro f1
  induction f1 with
  | zero =>
      intro f2 l h1 h2
      cases l with
      | nil => cases f2 <;> rfl
      | cons b rest => simp at h1
  | succ f ih =>
      intro f2 l h1 h2
      cases l with
      | nil => cases f2 <;> rfl
      | cons b rest =>
          cases f2 with
          | zero => simp at h2
          | succ f2 =>
              simp only [utf8ValidAux]
              cases h : utf8Take (b :: rest) with
              | none => rfl
              | some r =>
                  have hlt := utf8Take_lt _ _ h
                  simp only [List.length_cons] at hlt h1 h2
                  exact ih f2 r (by omega) (by omega)

/-- The defining equation of `utf8Valid`: strip one scalar at a time. -/
theorem utf8Valid_eq (l : Bytes) : utf8Valid l =
    match utf8Take l with
    | some r => utf8Valid r
    | none => l.isEmpty := by
  cases l with
  | nil => rfl
  | cons b rest =>
      show utf8ValidAux (b :: rest).length (b :: rest) = _
      simp only [List.length_cons, utf8ValidAux]
      cases h : utf8Take (b :: rest) with
      | none => simp
      | some r =>
          simp only []
          have hlt := utf8Take_lt _ _ h
          simp only [List.length_cons] at hlt
          exact utf8ValidAux_congr rest.length r.length r (by omega) (Nat.le_refl _)

/-! ### Round-trip lemmas for the JSON codec -/

theorem skipWs_noop (b : Nat) (l : Bytes) (h : isWsByte b = false) :
    skipWs (b :: l) = b :: l := by
  simp [skipWs, List.dropWhile_cons, h]

theorem hexVal_hexDigit (k : Nat) (h : k < 16) : hexVal (hexDigit k) = some k := by
  unfold hexVal hexDigit
  split_ifs <;>
    simp_all only [Bool.and_eq_true, decide_eq_true_eq, Option.some.injEq,
      Bool.not_eq_true] <;>
    omega

theorem escBytes_nil : escBytes [] = [] := rfl

theorem escBytes_cons (b : Nat) (s : Bytes) :
    escBytes (b :: s) = escByte b ++ escBytes s := by
  simp [escBytes]

theorem pStr_quote (r : Bytes) : pStr (34 :: r) = some ([], r) := by
  rw [pStr.eq_def]; rfl

theorem pStr_esc_quote (r : Bytes) :
    pStr (92 :: 34 :: r) = (pStr r).map (fun pr => (34 :: pr.1, pr.2)) := by
  rw [pStr.eq_def]; rfl

theorem pStr_esc_back (r : Bytes) :
    pStr (92 :: 92 :: r) = (pStr r).map (fun pr => (92 :: pr.1, pr.2)) := by
  rw [pStr.eq_def]; rfl

theorem pStr_esc_b (r : Bytes) :
    pStr (92 :: 98 :: r) = (pStr r).map (fun pr => (8 :: pr.1, pr.2)) := by
  rw [pStr.eq_def]; rfl

theorem pStr_esc_t (r : Bytes) :
    pStr (92 :: 116 :: r) = (pStr r).map (fun pr => (9 :: pr.1, pr.2)) := by
  rw [pStr.eq_def]; rfl

theorem pStr_esc_n (r : Bytes) :
    pStr (92 :: 110 :: r) = (pStr r).map (fun pr => (10 :: pr.1, pr.2)) := by
  rw [pStr.eq_def]; rfl

theorem pStr_esc_f (r : Bytes) :
    pStr (92 :: 102 :: r) = (pStr r).map (fun pr => (12 :: pr.1, pr.2)) := by
  rw [pStr.eq_def]; rfl

theorem pStr_esc_r (r : Bytes) :
    pStr (92 :: 114 :: r) = (pStr r).map (fun pr => (13 :: pr.1, pr.2)) := by
  rw [pStr.eq_def]; rfl

theorem pStr_raw (b : Nat) (r : Bytes) (h1 : ¬b = 34) (h2 : ¬b = 92) (h3 : ¬b < 32) :
    pStr (b :: r) = (pStr r).map (fun pr => (b :: pr.1, pr.2)) := by
  rw [pStr.eq_def]
  simp only [h1, h2, h3, if_false]

theorem pStr_esc_ctrl (b : Nat) (hb : b < 32) (r : Bytes) :
    pStr (92 :: 117 :: 48 :: 48 :: hexDigit (b / 16) :: hexDigit (b % 16) :: r)
      = (pStr r).map (fun pr => (b :: pr.1, pr.2)) := by
  have hv0 : hexVal 48 = some 0 := rfl
  have hv3 := hexVal_hexDigit (b / 16) (by omega)
  have hv4 := hexVal_hexDigit (b % 16) (by omega)
  have harith : 0 * 4096 + 0 * 256 + b / 16 * 16 + b % 16 = b := by omega
  rw [pStr.eq_def]
  simp only [hv0, hv3, hv4, harith]
  rw [if_pos (by omega : b < 128)]
  rfl

theorem pStr_roundtrip : ∀ (s rest : Bytes),
    pStr (escBytes s ++ (34 :: rest)) = some (s, rest) := by
  intro s
  induction s with
  | nil =>
      intro rest
      rw [escBytes_nil, List.nil_append, pStr_quote]
  | cons b s ih =>
      intro rest
      rw [escBytes_cons, List.append_assoc]
      by_cases h34 : b = 34
      · subst h34
        show pStr (92 :: 34 :: (escBytes s ++ 34 :: rest)) = _
        rw [pStr_esc_quote, ih rest]
        rfl
      · by_cases h92 : b = 92
        · subst h92
          show pStr (92 :: 92 :: (escBytes s ++ 34 :: rest)) = _
          rw [pStr_esc_back, ih rest]
          rfl
        · by_cases h8 : b = 8
          · subst h8
            show pStr (92 :: 98 :: (escBytes s ++ 34 :: rest)) = _
            rw [pStr_esc_b, ih rest]
            rfl
          · by_cases h9 : b = 9
            · subst h9
              show pStr (92 :: 116 :: (escBytes s ++ 34 :: rest)) = _
              rw [pStr_esc_t, ih rest]
              rfl
            · by_cases h10 : b = 10
              · subst h10
                show pStr (92 :: 110 :: (escBytes s ++ 34 :: rest)) = _
                rw [pStr_esc_n, ih rest]
                rfl
              · by_cases h12 : b = 12
                · subst h12
                  show pStr (92 :: 102 :: (escBytes s ++ 34 :: rest)) = _
                  rw [pStr_esc_f, ih rest]
                  rfl
                · by_cases h13 : b = 13
                  · subst h13
                    show pStr (92 :: 114 :: (escBytes s ++ 34 :: rest)) = _
                    rw [pStr_esc_r, ih rest]
                    rfl
                  · by_cases hlt : b < 32
                    · have hesc : escByte b =
                          [92, 117, 48, 48, hexDigit (b / 16), hexDigit (b % 16)] := by
                        unfold escByte
                        split_ifs <;> first | rfl | omega
                      rw [hesc]
                      show pStr (92 :: 117 :: 48 :: 48 :: hexDigit (b / 16) ::
                        hexDigit (b % 16) :: (escBytes s ++ 34 :: rest)) = _
                      rw [pStr_esc_ctrl b hlt, ih rest]
                      rfl
                    · have hesc : escByte b = [b] := by
                        unfold escByte
                        split_ifs <;> first | rfl | omega
                      rw [hesc]
                      show pStr (b :: (escBytes s ++ 34 :: rest)) = _
                      rw [pStr_raw b _ h34 h92 hlt, ih rest]
                      rfl

theorem pDigits_append : ∀ (ds rest : Bytes),
    (∀ b ∈ ds, isDigit b = true) →
    (∀ b ∈ rest.head?, isDigit b = false) →
    pDigits (ds ++ rest) = (ds, rest) := by
  intro ds
  induction ds with
  | nil =>
      intro rest hds hrest
      cases rest with
      | nil => rfl
      | cons b t =>
          have hb := hrest b (by simp)
          simp [pDigits, hb]
  | cons d ds ih =>
      intro rest hds hrest
      have hd := hds d (by simp)
      have hrec := ih rest (fun b hb => hds b (by simp [hb])) hrest
      rw [List.cons_append, pDigits.eq_def]
      simp only [hd, if_true, hrec]

theorem foldl_digits (L : List Nat) (a : Nat) :
    List.foldl (fun acc b => acc * 10 + (b - 48)) a (L.reverse.map (fun d => d + 48))
      = a * 10 ^ L.length + Nat.ofDigits 10 L := by
  induction L generalizing a with
  | nil => simp [Nat.ofDigits]
  | cons d L ih =>
      simp only [List.reverse_cons, List.map_append, List.map_cons, List.map_nil,
        List.foldl_append, List.foldl_cons, List.foldl_nil, ih,
        Nat.ofDigits_cons, List.length_cons]
      have h48 : d + 48 - 48 = d := by omega
      rw [h48]
      ring

theorem digitsVal_natDigitsB (n : Nat) : digitsVal (natDigitsB n) = n := by
  rw [natDigitsB_eq]
  by_cases hn : n = 0
  · subst hn; rfl
  · rw [if_neg hn]
    unfold digitsVal
    rw [foldl_digits]
    simp [Nat.ofDigits_digits]

theorem natDigitsB_spec (n : Nat) :
    natDigitsB n ≠ [] ∧ ∀ b ∈ natDigitsB n, isDigit b = true := by
  rw [natDigitsB_eq]
  by_cases hn : n = 0
  · subst hn
    refine ⟨by simp, ?_⟩
    intro b hb
    simp at hb
    subst hb
    rfl
  · rw [if_neg hn]
    constructor
    · simp only [ne_eq, List.map_eq_nil_iff, List.reverse_eq_nil_iff]
      exact Nat.digits_ne_nil_iff_ne_zero.2 hn
    · intro b hb
      simp only [List.mem_map, List.mem_reverse] at hb
      obtain ⟨d, hd, hdb⟩ := hb
      have : d < 10 := Nat.digits_lt_base (by norm_num) hd
      subst hdb
      simp only [isDigit, Bool.and_eq_true, decide_eq_true_eq]
      omega

theorem pNum_natDigitsB (n : Nat) (rest : Bytes) (hsep : sepOk rest = true) :
    pNum (natDigitsB n ++ rest) = some (n, rest) := by
  have hspec := natDigitsB_spec n
  have hrest : ∀ b ∈ rest.head?, isDigit b = false := by
    intro b hb
    cases rest with
    | nil => simp at hb
    | cons c t =>
        simp only [List.head?_cons, Option.mem_def, Option.some.injEq] at hb
        subst hb
        simp only [sepOk, Bool.and_eq_true, Bool.not_eq_true'] at hsep
        exact hsep.1.1.1
  have hne : (natDigitsB n).isEmpty = false := by
    cases hl : natDigitsB n with
    | nil => exact absurd hl hspec.1
    | cons d ds => rfl
  unfold pNum
  rw [pDigits_append (natDigitsB n) rest hspec.2 hrest]
  simp only [hne, Bool.false_eq_true, if_false]
  cases rest with
  | nil =>
      show some (digitsVal (natDigitsB n), ([] : Bytes)) = some (n, [])
      rw [digitsVal_natDigitsB]
  | cons b t =>
      simp only [sepOk, Bool.and_eq_true, Bool.not_eq_true'] at hsep
      obtain ⟨⟨⟨hd, h46⟩, h101⟩, h69⟩ := hsep
      have h46n : b ≠ 46 := by simpa using h46
      have h101n : b ≠ 101 := by simpa using h101
      have h69n : b ≠ 69 := by simpa using h69
      show (if b = 46 then none
        else if b = 101 then none
        else if b = 69 then none
        else some (digitsVal (natDigitsB n), b :: t)) = some (n, b :: t)
      rw [if_neg h46n, if_neg h101n, if_neg h69n, digitsVal_natDigitsB]

theorem serJson_head_spec : ∀ (j : Json),
    ∃ b t, serJson j = b :: t ∧ isWsByte b = false ∧ b ≠ 93 ∧ b ≠ 125 := by
  intro j
  cases j with
  | null => exact ⟨110, _, rfl, by decide, by decide, by decide⟩
  | boolean b =>
      cases b with
      | true => exact ⟨116, _, rfl, by decide, by decide, by decide⟩
      | false => exact ⟨102, _, rfl, by decide, by decide, by decide⟩
  | num n =>
      show ∃ b t, serInt n = b :: t ∧ _
      unfold serInt
      by_cases hneg : n < 0
      · rw [if_pos hneg]
        exact ⟨45, _, rfl, by decide, by decide, by decide⟩
      · rw [if_neg hneg]
        have hspec := natDigitsB_spec n.natAbs
        cases hnd : natDigitsB n.natAbs with
        | nil => exact absurd hnd hspec.1
        | cons d t =>
            have hd := hspec.2 d (by rw [hnd]; simp)
            simp only [isDigit, Bool.and_eq_true, decide_eq_true_eq] at hd
            refine ⟨d, t, rfl, ?_, by omega, by omega⟩
            simp only [isWsByte, Bool.or_eq_false_iff, decide_eq_false_iff_not]
            omega
  | str s => exact ⟨34, _, rfl, by decide, by decide, by decide⟩
  | arr xs => exact ⟨91, _, rfl, by decide, by decide, by decide⟩
  | obj fs => exact ⟨123, _, rfl, by decide, by decide, by decide⟩

theorem serJson_ne_nil (j : Json) : serJson j ≠ [] := by
  obtain ⟨b, t, hbt, _⟩ := serJson_head_spec j
  rw [hbt]
  simp

theorem serJson_length_pos (j : Json) : 0 < (serJson j).length := by
  obtain ⟨b, t, hbt, _⟩ := serJson_head_spec j
  rw [hbt]
  simp

theorem digit_facts (d : Nat) (hd : isDigit d = true) :
    isWsByte d = false ∧ d ≠ 110 ∧ d ≠ 116 ∧ d ≠ 102 ∧ d ≠ 34 ∧ d ≠ 91 ∧
    d ≠ 123 ∧ d ≠ 45 := by
  simp only [isDigit, Bool.and_eq_true, decide_eq_true_eq] at hd
  refine ⟨?_, ?_, ?_, ?_, ?_, ?_, ?_, ?_⟩ <;>
    first
      | (simp only [isWsByte, Bool.or_eq_false_iff, decide_eq_false_iff_not]; omega)
      | omega

theorem serElems_one (x : Json) : serElems [x] = serJson x := rfl

theorem serElems_cons2 (x y : Json) (ys : List Json) :
    serElems (x :: y :: ys) = serJson x ++ (44 :: serElems (y :: ys)) := rfl

theorem serFields_one (k : Bytes) (v : Json) :
    serFields [(k, v)] = (34 :: (escBytes k ++ [34])) ++ (58 :: serJson v) := rfl

theorem serFields_cons2 (k : Bytes) (v : Json) (p : Bytes × Json)
    (fs : List (Bytes × Json)) :
    serFields ((k, v) :: p :: fs) =
      (34 :: (escBytes k ++ [34])) ++ (58 :: serJson v) ++ (44 :: serFields (p :: fs)) := by
  cases p with
  | mk k2 v2 => rfl

theorem serJson_arr_eq (xs : List Json) :
    serJson (Json.arr xs) = 91 :: (serElems xs ++ [93]) := rfl

theorem serJson_obj_eq (fs : List (Bytes × Json)) :
    serJson (Json.obj fs) = 123 :: (serFields fs ++ [125]) := rfl

theorem serJson_str_eq (s : Bytes) : serJson (Json.str s) = 34 :: (escBytes s ++ [34]) := rfl

theorem serElems_head (xs : List Json) (hne : xs ≠ []) :
    ∃ b u, serElems xs = b :: u ∧ isWsByte b = false ∧ b ≠ 93 := by
  match xs with
  | [] => exact absurd rfl hne
  | [x] =>
      obtain ⟨b, t, hbt, hws, h93, _⟩ := serJson_head_spec x
      exact ⟨b, t, by rw [serElems_one, hbt], hws, h93⟩
  | x :: y :: ys =>
      obtain ⟨b, t, hbt, hws, h93, _⟩ := serJson_head_spec x
      exact ⟨b, t ++ (44 :: serElems (y :: ys)), by rw [serElems_cons2, hbt]; simp, hws, h93⟩

theorem serFields_head (fs : List (Bytes × Json)) (hne : fs ≠ []) :
    ∃ u, serFields fs = 34 :: u := by
  match fs with
  | [] => exact absurd rfl hne
  | [(k, v)] =>
      exact ⟨escBytes k ++ [34] ++ (58 :: serJson v), by rw [serFields_one]; simp⟩
  | (k, v) :: p :: fs2 =>
      exact ⟨escBytes k ++ [34] ++ (58 :: serJson v) ++ (44 :: serFields (p :: fs2)),
        by rw [serFields_cons2]; simp⟩

theorem pVal_str_arm (f : Nat) (l : Bytes) :
    pVal (f + 1) (34 :: l) = (pStr l).map (fun pr => (Json.str pr.1, pr.2)) := rfl

theorem pVal_neg_arm (f : Nat) (l : Bytes) :
    pVal (f + 1) (45 :: l) = (pNum l).map (fun pr => (Json.num (-(pr.1 : Int)), pr.2)) := rfl

theorem pVal_num_arm (f d : Nat) (u : Bytes) (hd : isDigit d = true) :
    pVal (f + 1) (d :: u) = (pNum (d :: u)).map (fun pr => (Json.num (pr.1 : Int), pr.2)) := by
  obtain ⟨hw, h110, h116, h102, h34, h91, h123, h45⟩ := digit_facts d hd
  rw [pVal.eq_def]
  simp only [skipWs_noop d u hw]
  rw [if_neg h110, if_neg h116, if_neg h102, if_neg h34, if_neg h91, if_neg h123,
    if_neg h45, if_pos hd]

theorem pVal_arr_arm (f c : Nat) (u : Bytes) (hws : isWsByte c = false) (hc : c ≠ 93) :
    pVal (f + 1) (91 :: (c :: u)) = (pElems f (c :: u)).map (fun pr => (Json.arr pr.1, pr.2)) := by
  rw [pVal.eq_def]
  simp only [skipWs_noop 91 (c :: u) (by decide), skipWs_noop c u hws]
  rw [if_neg (by decide : ¬ ((91 : Nat) = 110)), if_neg (by decide : ¬ ((91 : Nat) = 116)),
    if_neg (by decide : ¬ ((91 : Nat) = 102)), if_neg (by decide : ¬ ((91 : Nat) = 34)),
    if_pos trivial, if_neg hc]

theorem pVal_obj_arm (f c : Nat) (u : Bytes) (hws : isWsByte c = false) (hc : c ≠ 125) :
    pVal (f + 1) (123 :: (c :: u)) = (pFields f (c :: u)).map (fun pr => (Json.obj pr.1, pr.2)) := by
  rw [pVal.eq_def]
  simp only [skipWs_noop 123 (c :: u) (by decide), skipWs_noop c u hws]
  rw [if_neg (by decide : ¬ ((123 : Nat) = 110)), if_neg (by decide : ¬ ((123 : Nat) = 116)),
    if_neg (by decide : ¬ ((123 : Nat) = 102)), if_neg (by decide : ¬ ((123 : Nat) = 34)),
    if_neg (by decide : ¬ ((123 : Nat) = 91)), if_pos trivial,
    if_neg hc]

theorem pElems_close (f : Nat) (l : Bytes) (v : Json) (r : Bytes)
    (hv : pVal f l = some (v, 93 :: r)) : pElems (f + 1) l = some ([v], r) := by
  rw [pElems.eq_def]
  simp only [hv, skipWs_noop 93 r (by decide)]

theorem pElems_comma (f : Nat) (l : Bytes) (v : Json) (r : Bytes)
    (hv : pVal f l = some (v, 44 :: r)) :
    pElems (f + 1) l = (pElems f r).map (fun pr => (v :: pr.1, pr.2)) := by
  rw [pElems.eq_def]
  simp only [hv, skipWs_noop 44 r (by decide)]

theorem pFields_close (f : Nat) (l k rest3 : Bytes) (v : Json) (r : Bytes)
    (hk : pStr l = some (k, 58 :: rest3)) (hv : pVal f rest3 = some (v, 125 :: r)) :
    pFields (f + 1) (34 :: l) = some ([(k, v)], r) := by
  rw [pFields.eq_def]
  simp only [skipWs_noop 34 l (by decide), hk, skipWs_noop 58 rest3 (by decide), hv,
    skipWs_noop 125 r (by decide)]

theorem pFields_comma (f : Nat) (l k rest3 : Bytes) (v : Json) (r : Bytes)
    (hk : pStr l = some (k, 58 :: rest3)) (hv : pVal f rest3 = some (v, 44 :: r)) :
    pFields (f + 1) (34 :: l) = (pFields f r).map (fun pr => ((k, v) :: pr.1, pr.2)) := by
  rw [pFields.eq_def]
  simp only [skipWs_noop 34 l (by decide), hk, skipWs_noop 58 rest3 (by decide), hv,
    skipWs_noop 44 r (by decide)]

theorem roundtrip_main : ∀ f : Nat,
    (∀ (j : Json) (rest : Bytes), (serJson j).length < f → sepOk rest = true →
      pVal f (serJson j ++ rest) = some (j, rest)) ∧
    (∀ (xs : List Json) (rest : Bytes), xs ≠ [] → (serElems xs).length + 1 < f →
      pElems f (serElems xs ++ (93 :: rest)) = some (xs, rest)) ∧
    (∀ (fs : List (Bytes × Json)) (rest : Bytes), fs ≠ [] → (serFields fs).length + 1 < f →
      pFields f (serFields fs ++ (125 :: rest)) = some (fs, rest)) := by
  intro f
  induction f using Nat.strong_induction_on with
  | _ f ih =>
    cases f with
    | zero =>
        refine ⟨fun j rest h _ => absurd h (by omega),
          fun xs rest _ h => absurd h (by omega),
          fun fs rest _ h => absurd h (by omega)⟩
    | succ fl =>
        refine ⟨?_, ?_, ?_⟩
        · intro j rest hlen hsep
          cases j with
          | null =>
              show pVal (fl + 1) (110 :: 117 :: 108 :: 108 :: rest) = some (Json.null, rest)
              rw [pVal.eq_def]; rfl
          | boolean b =>
              cases b with
              | true =>
                  show pVal (fl + 1) (116 :: 114 :: 117 :: 101 :: rest)
                    = some (Json.boolean true, rest)
                  rw [pVal.eq_def]; rfl
              | false =>
                  show pVal (fl + 1) (102 :: 97 :: 108 :: 115 :: 101 :: rest)
                    = some (Json.boolean false, rest)
                  rw [pVal.eq_def]; rfl
          | num n =>
              by_cases hneg : n < 0
              · have hl : serJson (Json.num n) ++ rest = 45 :: (natDigitsB n.natAbs ++ rest) := by
                  show serInt n ++ rest = _
                  unfold serInt
                  rw [if_pos hneg]
                  simp
                rw [hl, pVal_neg_arm fl (natDigitsB n.natAbs ++ rest),
                  pNum_natDigitsB n.natAbs rest hsep]
                show some (Json.num (-(n.natAbs : Int)), rest) = some (Json.num n, rest)
                rw [(by omega : (-(n.natAbs : Int)) = n)]
              · have hspec := natDigitsB_spec n.natAbs
                cases hnd : natDigitsB n.natAbs with
                | nil => exact absurd hnd hspec.1
                | cons d ds =>
                    have hdd : isDigit d = true := hspec.2 d (by rw [hnd]; simp)
                    have hl : serJson (Json.num n) ++ rest = d :: (ds ++ rest) := by
                      show serInt n ++ rest = _
                      unfold serInt
                      rw [if_neg hneg, hnd]
                      simp
                    rw [hl, pVal_num_arm fl d (ds ++ rest) hdd]
                    rw [(by rw [hnd]; rfl : d :: (ds ++ rest) = natDigitsB n.natAbs ++ rest)]
                    rw [pNum_natDigitsB n.natAbs rest hsep]
                    show some (Json.num ((n.natAbs : Int)), rest) = some (Json.num n, rest)
                    rw [(by omega : ((n.natAbs : Int)) = n)]
          | str s =>
              have hl : serJson (Json.str s) ++ rest = 34 :: (escBytes s ++ (34 :: rest)) := by
                rw [serJson_str_eq]
                simp
              rw [hl, pVal_str_arm fl (escBytes s ++ (34 :: rest)), pStr_roundtrip s rest]
              rfl
          | arr xs =>
              cases xs with
              | nil =>
                  show pVal (fl + 1) (91 :: 93 :: rest) = some (Json.arr [], rest)
                  rw [pVal.eq_def]; rfl
              | cons x xs2 =>
                  have hL : (serJson (Json.arr (x :: xs2))).length
                      = (serElems (x :: xs2)).length + 2 := by
                    rw [serJson_arr_eq]
                    simp only [List.length_cons, List.length_append, List.length_singleton, List.length_nil]
                  have hl : serJson (Json.arr (x :: xs2)) ++ rest
                      = 91 :: (serElems (x :: xs2) ++ (93 :: rest)) := by
                    rw [serJson_arr_eq]
                    simp
                  obtain ⟨b, u0, hu0, hws, h93⟩ := serElems_head (x :: xs2) (by simp)
                  have hu : serElems (x :: xs2) ++ (93 :: rest) = b :: (u0 ++ (93 :: rest)) := by
                    rw [hu0]
                    simp
                  rw [hl, hu, pVal_arr_arm fl b (u0 ++ (93 :: rest)) hws h93, ← hu]
                  rw [(ih fl (by omega)).2.1 (x :: xs2) rest (by simp) (by omega)]
                  rfl
          | obj fs =>
              cases fs with
              | nil =>
                  show pVal (fl + 1) (123 :: 125 :: rest) = some (Json.obj [], rest)
                  rw [pVal.eq_def]; rfl
              | cons p fs2 =>
                  have hL : (serJson (Json.obj (p :: fs2))).length
                      = (serFields (p :: fs2)).length + 2 := by
                    rw [serJson_obj_eq]
                    simp only [List.length_cons, List.length_append, List.length_singleton, List.length_nil]
                  have hl : serJson (Json.obj (p :: fs2)) ++ rest
                      = 123 :: (serFields (p :: fs2) ++ (125 :: rest)) := by
                    rw [serJson_obj_eq]
                    simp
                  obtain ⟨u0, hu0⟩ := serFields_head (p :: fs2) (by simp)
                  have hu : serFields (p :: fs2) ++ (125 :: rest)
                      = 34 :: (u0 ++ (125 :: rest)) := by
                    rw [hu0]
                    simp
                  rw [hl, hu, pVal_obj_arm fl 34 (u0 ++ (125 :: rest)) (by decide) (by decide),
                    ← hu]
                  rw [(ih fl (by omega)).2.2 (p :: fs2) rest (by simp) (by omega)]
                  rfl
        · intro xs rest hne hlen
          cases xs with
          | nil => exact absurd rfl hne
          | cons x xs2 =>
              cases xs2 with
              | nil =>
                  have hlx : (serJson x).length < fl := by
                    rw [serElems_one] at hlen
                    omega
                  rw [serElems_one]
                  exact pElems_close fl (serJson x ++ (93 :: rest)) x rest
                    ((ih fl (by omega)).1 x (93 :: rest) hlx rfl)
              | cons y ys =>
                  have hLL : (serElems (x :: y :: ys)).length
                      = (serJson x).length + 1 + (serElems (y :: ys)).length := by
                    rw [serElems_cons2]
                    simp only [List.length_append, List.length_cons]
                    omega
                  have hpos := serJson_length_pos x
                  have hl2 : serElems (x :: y :: ys) ++ (93 :: rest)
                      = serJson x ++ (44 :: (serElems (y :: ys) ++ (93 :: rest))) := by
                    rw [serElems_cons2]
                    simp
                  rw [hl2]
                  rw [pElems_comma fl (serJson x ++ (44 :: (serElems (y :: ys) ++ (93 :: rest))))
                    x (serElems (y :: ys) ++ (93 :: rest))
                    ((ih fl (by omega)).1 x (44 :: (serElems (y :: ys) ++ (93 :: rest)))
                      (by omega) rfl)]
                  rw [(ih fl (by omega)).2.1 (y :: ys) rest (by simp) (by omega)]
                  rfl
        · intro fs rest hne hlen
          cases fs with
          | nil => exact absurd rfl hne
          | cons p fs2 =>
              obtain ⟨k, v⟩ := p
              cases fs2 with
              | nil =>
                  have hLF : (serFields [(k, v)]).length
                      = (escBytes k).length + (serJson v).length + 3 := by
                    rw [serFields_one]
                    simp only [List.length_append, List.length_cons, List.length_singleton, List.length_nil]
                    omega
                  have hl : serFields [(k, v)] ++ (125 :: rest)
                      = 34 :: (escBytes k ++ (34 :: (58 :: (serJson v ++ (125 :: rest))))) := by
                    rw [serFields_one]
                    simp
                  rw [hl]
                  exact pFields_close fl
                    (escBytes k ++ (34 :: (58 :: (serJson v ++ (125 :: rest)))))
                    k (serJson v ++ (125 :: rest)) v rest
                    (pStr_roundtrip k (58 :: (serJson v ++ (125 :: rest))))
                    ((ih fl (by omega)).1 v (125 :: rest) (by omega) rfl)
              | cons q fs3 =>
                  have hLF2 : (serFields ((k, v) :: q :: fs3)).length
                      = (escBytes k).length + (serJson v).length
                        + (serFields (q :: fs3)).length + 4 := by
                    rw [serFields_cons2]
                    simp only [List.length_append, List.length_cons, List.length_singleton, List.length_nil]
                    omega
                  have hposv := serJson_length_pos v
                  have hl : serFields ((k, v) :: q :: fs3) ++ (125 :: rest)
                      = 34 :: (escBytes k ++ (34 :: (58 :: (serJson v
                          ++ (44 :: (serFields (q :: fs3) ++ (125 :: rest))))))) := by
                    rw [serFields_cons2]
                    simp
                  rw [hl]
                  rw [pFields_comma fl
                    (escBytes k ++ (34 :: (58 :: (serJson v
                      ++ (44 :: (serFields (q :: fs3) ++ (125 :: rest)))))))
                    k (serJson v ++ (44 :: (serFields (q :: fs3) ++ (125 :: rest)))) v
                    (serFields (q :: fs3) ++ (125 :: rest))
                    (pStr_roundtrip k
                      (58 :: (serJson v ++ (44 :: (serFields (q :: fs3) ++ (125 :: rest))))))
                    ((ih fl (by omega)).1 v
                      (44 :: (serFields (q :: fs3) ++ (125 :: rest))) (by omega) rfl)]
                  rw [(ih fl (by omega)).2.2 (q :: fs3) rest (by simp) (by omega)]
                  rfl

theorem parseJsonDoc_serJson (j : Json) : parseJsonDoc (serJson j) = some j := by
  unfold parseJsonDoc
  have h := (roundtrip_main ((serJson j).length + 1)).1 j [] (by omega) rfl
  rw [List.append_nil] at h
  rw [h]
  rfl

/-! #### Frame-level decode lemmas. -/

theorem readLineAux_frame : ∀ (a b : Bytes), 10 ∉ a →
    readLineAux (a ++ (10 :: b)) = (a ++ [10], b) := by
  intro a
  induction a with
  | nil => intro b _; rfl
  | cons x xs ih =>
      intro b h
      have hx : ¬(x = 10) := by
        intro hc
        subst hc
        exact h (List.mem_cons_self 10 xs)
      rw [List.cons_append, readLineAux.eq_def]
      simp only [ih b (fun hc => h (List.mem_cons_of_mem x hc))]
      rw [if_neg hx]
      rfl

theorem ascii_utf8Valid : ∀ (l : Bytes), (∀ b ∈ l, b < 128) → utf8Valid l = true := by
  intro l
  induction l with
  | nil => intro _; rfl
  | cons b rest ih =>
      intro h
      rw [utf8Valid_eq]
      have hb : b < 128 := h b (List.mem_cons_self b rest)
      have ht : utf8Take (b :: rest) = some rest := by
        simp only [utf8Take]
        rw [if_pos (by omega : b ≤ 127)]
      simp only [ht]
      exact ih (fun x hx => h x (List.mem_cons_of_mem b hx))

theorem trimBytes_wrap (a c : Nat) (mid : Bytes) (ha : isTrimByte a = false)
    (hc : isTrimByte c = false) :
    trimBytes (a :: ((mid ++ [c]) ++ [13, 10])) = a :: (mid ++ [c]) := by
  unfold trimBytes
  rw [List.dropWhile_cons, ha, if_neg (by simp : ¬(false = true))]
  have h1 : (a :: ((mid ++ [c]) ++ [13, 10])).reverse = 10 :: 13 :: c :: (mid.reverse ++ [a]) := by
    simp
  rw [h1]
  rw [List.dropWhile_cons, (by decide : isTrimByte 10 = true), if_pos rfl]
  rw [List.dropWhile_cons, (by decide : isTrimByte 13 = true), if_pos rfl]
  rw [List.dropWhile_cons, hc, if_neg (by simp : ¬(false = true))]
  simp

theorem trim_header (n : Nat) :
    trimBytes ((contentLengthBytes ++ [58, 32] ++ natDigitsB n ++ [13]) ++ [10])
      = contentLengthBytes ++ (58 :: 32 :: natDigitsB n) := by
  obtain h | ⟨ds, d, hds⟩ := List.eq_nil_or_concat (natDigitsB n)
  · exact absurd h (natDigitsB_spec n).1
  · have hd : isDigit d = true := (natDigitsB_spec n).2 d (by rw [hds]; simp)
    have hdt : isTrimByte d = false := by
      simp only [isDigit, Bool.and_eq_true, decide_eq_true_eq] at hd
      simp only [isTrimByte, Bool.or_eq_false_iff, decide_eq_false_iff_not]
      omega
    have hform : (contentLengthBytes ++ [58, 32] ++ natDigitsB n ++ [13]) ++ [10]
        = 67 :: ((([111, 110, 116, 101, 110, 116, 45, 76, 101, 110, 103, 116, 104, 58, 32]
            ++ ds) ++ [d]) ++ [13, 10]) := by
      rw [hds]
      simp [contentLengthBytes]
    rw [hform, trimBytes_wrap 67 d _ (by decide) hdt]
    rw [hds]
    simp [contentLengthBytes]

theorem splitOnce_prefix : ∀ (a tail : Bytes), (∀ x ∈ a, x ≠ 58) →
    splitOnce (a ++ (58 :: 32 :: tail)) = some (a, tail) := by
  intro a
  induction a with
  | nil => intro tail _; rfl
  | cons x xs ih =>
      intro tail h
      have hx : ¬(x = 58) := h x (List.mem_cons_self x xs)
      rw [List.cons_append, splitOnce.eq_def]
      simp only [ih tail (fun y hy => h y (List.mem_cons_of_mem x hy))]
      rw [if_neg hx]
      rfl

theorem parseUsize_natDigitsB (n : Nat) : parseUsize (natDigitsB n) = some n := by
  have hspec := natDigitsB_spec n
  have hh : ¬((natDigitsB n).head? = some 43) := by
    cases hnd : natDigitsB n with
    | nil => simp
    | cons d ds =>
        have hd := hspec.2 d (by rw [hnd]; simp)
        simp only [isDigit, Bool.and_eq_true, decide_eq_true_eq] at hd
        simp only [List.head?_cons, Option.some.injEq]
        omega
  have hne : (natDigitsB n).isEmpty = false := by
    cases hnd : natDigitsB n with
    | nil => exact absurd hnd hspec.1
    | cons d ds => rfl
  have hall : (natDigitsB n).all isDigit = true :=
    List.all_eq_true.2 (fun x hx => hspec.2 x hx)
  simp only [parseUsize]
  rw [if_neg hh, hne, hall, if_pos (by decide : ((!false && true : Bool) = true)),
    digitsVal_natDigitsB]

theorem headerLoop_blank (f : Nat) (cl : Option Nat) (tail : Bytes) :
    headerLoop (f + 1) (13 :: 10 :: tail) cl = (Except.ok cl, tail, [13, 10]) := by
  have hrl : readLineAux (13 :: 10 :: tail) = ([13, 10], tail) :=
    readLineAux_frame [13] tail (by decide)
  rw [headerLoop.eq_def]
  simp only [hrl]
  rfl

theorem headerLoop_frame (f n : Nat) (tail : Bytes) :
    headerLoop (f + 2) (mkFrameHdr n ++ tail) none = (Except.ok (some n), tail, [13, 10]) := by
  have h10 : (10 : Nat) ∉ contentLengthBytes ++ [58, 32] ++ natDigitsB n ++ [13] := by
    intro hmem
    simp only [List.mem_append, List.mem_cons, List.not_mem_nil, or_false] at hmem
    rcases hmem with ((hc | h5) | hd) | h13
    · exact absurd hc (by decide)
    · rcases h5 with h | h <;> omega
    · have := (natDigitsB_spec n).2 10 hd
      simp only [isDigit, Bool.and_eq_true, decide_eq_true_eq] at this
      omega
    · omega
  have hline : mkFrameHdr n ++ tail
      = (contentLengthBytes ++ [58, 32] ++ natDigitsB n ++ [13]) ++ (10 :: (13 :: 10 :: tail)) := by
    simp [mkFrameHdr]
  have hrl : readLineAux (mkFrameHdr n ++ tail)
      = ((contentLengthBytes ++ [58, 32] ++ natDigitsB n ++ [13]) ++ [10], 13 :: 10 :: tail) := by
    rw [hline]
    exact readLineAux_frame _ _ h10
  have hne : ¬(((contentLengthBytes ++ [58, 32] ++ natDigitsB n ++ [13]) ++ [10] : Bytes)
      = []) := by simp
  have hval : utf8Valid ((contentLengthBytes ++ [58, 32] ++ natDigitsB n ++ [13]) ++ [10])
      = true := by
    apply ascii_utf8Valid
    intro x hx
    simp only [List.mem_append, List.mem_cons, List.not_mem_nil, or_false] at hx
    rcases hx with (((hc | h5) | hd) | h13) | h10b
    · have hall : ∀ y ∈ contentLengthBytes, y < 128 := by decide
      exact hall x hc
    · rcases h5 with h | h <;> omega
    · have := (natDigitsB_spec n).2 x hd
      simp only [isDigit, Bool.and_eq_true, decide_eq_true_eq] at this
      omega
    · omega
    · omega
  have hXutf : ¬((!(utf8Valid ((contentLengthBytes ++ [58, 32] ++ natDigitsB n ++ [13]) ++ [10])))
      = true) := by
    rw [hval]
    decide
  have hne2 : ¬(((contentLengthBytes ++ [58, 32] ++ natDigitsB n ++ [13]) ++ [10] : Bytes)
      = [13, 10]) := by
    intro hcontra
    have h67 : (contentLengthBytes ++ [58, 32] ++ natDigitsB n ++ [13]) ++ [10]
        = 67 :: (([111, 110, 116, 101, 110, 116, 45, 76, 101, 110, 103, 116, 104]
            ++ [58, 32] ++ natDigitsB n ++ [13]) ++ [10]) := by
      simp [contentLengthBytes]
    rw [h67] at hcontra
    simp at hcontra
  have htrim := trim_header n
  have hsplit := splitOnce_prefix contentLengthBytes (natDigitsB n) (by decide)
  rw [headerLoop.eq_def]
  simp only [hrl, htrim, hsplit, parseUsize_natDigitsB n]
  rw [if_neg hne, if_neg hXutf, if_neg hne2, if_pos trivial]
  exact headerLoop_blank f (some n) tail

theorem recvServerMessage_frame_ok (n : Nat) (body rest buffer content : Bytes)
    (m : ServerMessage) (hlen : body.length = n) (hbd : bodyDecode body = Except.ok m) :
    recvServerMessage (mkFrameHdr n ++ (body ++ rest)) buffer content
      = (Except.ok m, rest, [13, 10], []) := by
  have hfl : (mkFrameHdr n ++ (body ++ rest)).length + 1
      = ((mkFrameHdr n ++ (body ++ rest)).length - 1) + 2 := by
    have hpos : 0 < (mkFrameHdr n).length := by simp [mkFrameHdr]
    simp only [List.length_append]
    omega
  have hHL : headerLoop ((mkFrameHdr n ++ (body ++ rest)).length + 1)
      (mkFrameHdr n ++ (body ++ rest)) none = (Except.ok (some n), body ++ rest, [13, 10]) := by
    rw [hfl]
    exact headerLoop_frame _ n (body ++ rest)
  have hnlt : ¬((body ++ rest).length < n) := by
    simp only [List.length_append]
    omega
  have htake : (body ++ rest).take n = body := by
    rw [← hlen]
    exact List.take_left body rest
  have hdrop : (body ++ rest).drop n = rest := by
    rw [← hlen]
    exact List.drop_left body rest
  unfold recvServerMessage
  simp only [hHL]
  rw [if_neg hnlt]
  simp only [htake, hdrop, hbd]

theorem recvServerMessage_frame_err (n : Nat) (body rest buffer content : Bytes)
    (e : RecvErr) (hlen : body.length = n) (hbd : bodyDecode body = Except.error e) :
    recvServerMessage (mkFrameHdr n ++ (body ++ rest)) buffer content
      = (Except.error e, rest, [13, 10], body) := by
  have hfl : (mkFrameHdr n ++ (body ++ rest)).length + 1
      = ((mkFrameHdr n ++ (body ++ rest)).length - 1) + 2 := by
    have hpos : 0 < (mkFrameHdr n).length := by simp [mkFrameHdr]
    simp only [List.length_append]
    omega
  have hHL : headerLoop ((mkFrameHdr n ++ (body ++ rest)).length + 1)
      (mkFrameHdr n ++ (body ++ rest)) none = (Except.ok (some n), body ++ rest, [13, 10]) := by
    rw [hfl]
    exact headerLoop_frame _ n (body ++ rest)
  have hnlt : ¬((body ++ rest).length < n) := by
    simp only [List.length_append]
    omega
  have htake : (body ++ rest).take n = body := by
    rw [← hlen]
    exact List.take_left body rest
  have hdrop : (body ++ rest).drop n = rest := by
    rw [← hlen]
    exact List.drop_left body rest
  unfold recvServerMessage
  simp only [hHL]
  rw [if_neg hnlt]
  simp only [htake, hdrop, hbd]

theorem parseSM_methodCall (m : MethodCall) :
    parseSM (jsonOfMethodCall m) = some (ServerMessage.call (Call.methodCall m)) := by
  obtain ⟨id, method, params⟩ := m
  cases id <;> cases params <;> rfl

theorem bodyDecode_serMethodCall (m : MethodCall) (h : utf8Valid (serMethodCall m) = true) :
    bodyDecode (serMethodCall m) = Except.ok (ServerMessage.call (Call.methodCall m)) := by
  unfold serMethodCall at h ⊢
  unfold bodyDecode
  rw [if_neg (by rw [h]; decide)]
  simp only [parseJsonDoc_serJson (jsonOfMethodCall m), parseSM_methodCall m]

/-! ### Claim C6 -/

/-- Claim C6: frame-codec round-trip.  Writing any request message with the
`Content-Length` framing of `send_string_to_server` and decoding the bytes
with `recv_server_message` yields the same message (the UTF-8 validity of the
serialized body, guaranteed in Rust by `String`, is the hypothesis of the
byte-level model); moreover a header announcing `n` bytes followed by exactly
`n` body bytes decodes exactly that body — to its message when the body
decodes, and to its decode error otherwise — consuming exactly the frame. -/
theorem c6_frame_roundtrip :
    (∀ (m : MethodCall) (rest buffer content : Bytes),
      utf8Valid (serMethodCall m) = true →
      recvServerMessage (sendStringToServer (serMethodCall m) ++ rest) buffer content
        = (Except.ok (ServerMessage.call (Call.methodCall m)), rest, [13, 10], [])) ∧
    (∀ (n : Nat) (body rest buffer content : Bytes) (m : ServerMessage),
      body.length = n → bodyDecode body = Except.ok m →
      recvServerMessage ((mkFrameHdr n ++ body) ++ rest) buffer content
        = (Except.ok m, rest, [13, 10], [])) ∧
    (∀ (n : Nat) (body rest buffer content : Bytes) (e : RecvErr),
      body.length = n → bodyDecode body = Except.error e →
      recvServerMessage ((mkFrameHdr n ++ body) ++ rest) buffer content
        = (Except.error e, rest, [13, 10], body)) := by
  refine ⟨?_, ?_, ?_⟩
  · intro m rest buffer content h
    have hb := bodyDecode_serMethodCall m h
    have hform : sendStringToServer (serMethodCall m) ++ rest
        = mkFrameHdr (serMethodCall m).length ++ (serMethodCall m ++ rest) := by
      simp [sendStringToServer]
    rw [hform]
    exact recvServerMessage_frame_ok (serMethodCall m).length (serMethodCall m) rest
      buffer content _ rfl hb
  · intro n body rest buffer content m hlen hbd
    rw [List.append_assoc]
    exact recvServerMessage_frame_ok n body rest buffer content m hlen hbd
  · intro n body rest buffer content e hlen hbd
    rw [List.append_assoc]
    exact recvServerMessage_frame_err n body rest buffer content e hlen hbd

/-- Claim C7 is false on the code: on the concrete stream framing the
5-byte body "hello", the body fails to decode and the content buffer is
returned still holding those 5 bytes — `content.clear()` runs only on the
success path (transport.rs line 139). -/
theorem c7_counterexample : ¬ C7Claim := by
  intro h
  have h2 := (h (mkFrameHdr 5 ++ [104, 101, 108, 108, 111]) [] []).2
  rw [show (recvServerMessage (mkFrameHdr 5 ++ [104, 101, 108, 108, 111]) [] []).2.2.2
      = [104, 101, 108, 108, 111] from by decide] at h2
  simp at h2

/-- Claim C7 amended: the content buffer is cleared only on a successful
decode (and the line buffer is cleared at the start of each header read),
but the outcome of a decode attempt — its result and the remaining stream —
depends only on the input stream and never on residual buffer contents, so a
failed attempt cannot alter how the next frame decodes. -/
theorem c7_amended_buffer_independence (stream b1 c1 b2 c2 : Bytes) :
    (recvServerMessage stream b1 c1).1 = (recvServerMessage stream b2 c2).1 ∧
    (recvServerMessage stream b1 c1).2.1 = (recvServerMessage stream b2 c2).2.1 ∧
    (∀ m, (recvServerMessage stream b1 c1).1 = Except.ok m →
      (recvServerMessage stream b1 c1).2.2.2 = []) := by
  unfold recvServerMessage
  rcases hh : headerLoop (stream.length + 1) stream none with ⟨res, rest, buf⟩
  cases res with
  | error e => simp
  | ok cl =>
      cases cl with
      | none => simp
      | some n =>
          by_cases hlen : rest.length < n
          · simp [hlen]
          · simp only [hlen, if_false]
            cases hb : bodyDecode (rest.take n) with
            | ok m => simp
            | error e => simp

/-! ### Claim C8 -/

theorem parseSM_output_shape (fields : List (Bytes × Json)) (o : Output)
    (h : parseSM (Json.obj fields) = some (ServerMessage.output o)) :
    respShapeB fields = true := by
  cases hr : respShapeB fields with
  | true => rfl
  | false =>
      unfold parseSM at h
      simp only [hr, Bool.false_eq_true, if_false] at h
      by_cases hm : hasFieldB methodKey fields = true
      · simp only [hm, if_true] at h
        iterate 5 (all_goals try (split at h))
        all_goals simp_all
      · simp [hm] at h

theorem parseSM_call_shape (fields : List (Bytes × Json)) (c : Call)
    (h : parseSM (Json.obj fields) = some (ServerMessage.call c)) :
    respShapeB fields = false ∧ hasFieldB methodKey fields = true := by
  cases hr : respShapeB fields with
  | false =>
      refine ⟨rfl, ?_⟩
      cases hm : hasFieldB methodKey fields with
      | true => rfl
      | false =>
          unfold parseSM at h
          simp [hr, hm] at h
  | true =>
      exfalso
      unfold parseSM at h
      simp only [hr, if_true] at h
      iterate 4 (all_goals try (split at h))
      all_goals simp_all

/-- Claim C8: the body classification is two-phase.  A decoded object is
classified as a response (an `Output`) exactly when it matches the response
shape — it has an `id`, a `result` or `error`, and no `method`; otherwise the
call shape (`method` present) is attempted; an object matching neither shape
is a fatal decode error, as is any non-object body.  In particular a body
carrying `id`, `result` and `method` together is never classified as a
response. -/
theorem c8_two_phase_classification :
    (∀ fields o, parseSM (Json.obj fields) = some (ServerMessage.output o) →
      respShapeB fields = true) ∧
    (∀ fields c, parseSM (Json.obj fields) = some (ServerMessage.call c) →
      respShapeB fields = false ∧ hasFieldB methodKey fields = true) ∧
    (∀ fields, respShapeB fields = false → hasFieldB methodKey fields = false →
      parseSM (Json.obj fields) = none) ∧
    (∀ j, (∀ fields, j ≠ Json.obj fields) → parseSM j = none) ∧
    (∀ fields, hasFieldB idKey fields = true → hasFieldB resultKey fields = true →
      hasFieldB methodKey fields = true →
      ∀ o, parseSM (Json.obj fields) ≠ some (ServerMessage.output o)) := by
  refine ⟨parseSM_output_shape, parseSM_call_shape, ?_, ?_, ?_⟩
  · intro fields hr hm
    unfold parseSM
    simp [hr, hm]
  · intro j hj
    cases j with
    | obj fields => exact absurd rfl (hj fields)
    | null => rfl
    | boolean b => rfl
    | num n => rfl
    | str s => rfl
    | arr xs => rfl
  · intro fields hid hres hm o h
    have hshape := parseSM_output_shape fields o h
    unfold respShapeB at hshape
    simp [hid, hres, hm] at hshape

/-! ### Concrete witnesses -/

/-- Witness for the amended C1 theorem on a concrete run: one request written
after the Ready transition, then stream closure; its sender (token 0) is
removed exactly once. -/
theorem c1_witness :
    WfTrace ([Event.notifyInit,
        Event.sendMsg (Payload.request 0
          { id := JId.num 1, method := [102, 111, 111], params := JParams.nothing })]
      ++ Event.readClosed :: []) ∧
    run initState ([Event.notifyInit,
        Event.sendMsg (Payload.request 0
          { id := JId.num 1, method := [102, 111, 111], params := JParams.nothing })]
      ++ [Event.readClosed]) = some
      { pending := [], pendingMessages := [], isPending := false,
        readerAlive := false, writerAlive := true,
        wire := [Payload.request 0
          { id := JId.num 1, method := [102, 111, 111], params := JParams.nothing }],
        inbound := [initializedCall, exitCall],
        deliveries := [(0, TRes.err TError.streamClosed)],
        insertions := [0], removals := [0] } ∧
    (({ pending := [], pendingMessages := [], isPending := false,
        readerAlive := false, writerAlive := true,
        wire := [Payload.request 0
          { id := JId.num 1, method := [102, 111, 111], params := JParams.nothing }],
        inbound := [initializedCall, exitCall],
        deliveries := [(0, TRes.err TError.streamClosed)],
        insertions := [0], removals := [0] } : TState).removals.count 0 = 1) :=
  ⟨by decide, by rfl,
    (c1_amended_removal_discipline
      [Event.notifyInit,
        Event.sendMsg (Payload.request 0
          { id := JId.num 1, method := [102, 111, 111], params := JParams.nothing })]
      []
      { pending := [], pendingMessages := [], isPending := false,
        readerAlive := false, writerAlive := true,
        wire := [Payload.request 0
          { id := JId.num 1, method := [102, 111, 111], params := JParams.nothing }],
        inbound := [initializedCall, exitCall],
        deliveries := [(0, TRes.err TError.streamClosed)],
        insertions := [0], removals := [0] }
      { pending := [], pendingMessages := [], isPending := false,
        readerAlive := false, writerAlive := true,
        wire := [Payload.request 0
          { id := JId.num 1, method := [102, 111, 111], params := JParams.nothing }],
        inbound := [initializedCall, exitCall],
        deliveries := [(0, TRes.err TError.streamClosed)],
        insertions := [0], removals := [0] }
      (by decide) (by rfl) rfl).2.1 0 (by decide)⟩

/-- Witness for C2 on a concrete run: a non-handshake request deferred while
Pending, then the Ready transition, then a notification; the wire is exactly
the deferred request followed by the later notification. -/
theorem c2_witness :
    Event.notifyInit ∉ [Event.sendMsg (Payload.request 0
      { id := JId.num 1, method := [102, 111, 111], params := JParams.nothing })] ∧
    run initState ([Event.sendMsg (Payload.request 0
        { id := JId.num 1, method := [102, 111, 111], params := JParams.nothing })]
      ++ Event.notifyInit ::
        [Event.sendMsg (Payload.notif { method := [98, 97, 114], params := JParams.nothing })])
      = some
      { pending := [(JId.num 1, 0)], pendingMessages := [], isPending := false,
        readerAlive := true, writerAlive := true,
        wire := [Payload.request 0
          { id := JId.num 1, method := [102, 111, 111], params := JParams.nothing },
          Payload.notif { method := [98, 97, 114], params := JParams.nothing }],
        inbound := [initializedCall], deliveries := [],
        insertions := [0], removals := [] } ∧
    ({ pending := [(JId.num 1, 0)], pendingMessages := [], isPending := false,
        readerAlive := true, writerAlive := true,
        wire := [Payload.request 0
          { id := JId.num 1, method := [102, 111, 111], params := JParams.nothing },
          Payload.notif { method := [98, 97, 114], params := JParams.nothing }],
        inbound := [initializedCall], deliveries := [],
        insertions := [0], removals := [] } : TState).wire
      = earlyWrites [Event.sendMsg (Payload.request 0
          { id := JId.num 1, method := [102, 111, 111], params := JParams.nothing })]
        ++ deferredOf [Event.sendMsg (Payload.request 0
          { id := JId.num 1, method := [102, 111, 111], params := JParams.nothing })]
        ++ sentOf [Event.sendMsg
          (Payload.notif { method := [98, 97, 114], params := JParams.nothing })] :=
  ⟨by decide, by rfl,
    (c2_handshake_gate_ordering
      [Event.sendMsg (Payload.request 0
        { id := JId.num 1, method := [102, 111, 111], params := JParams.nothing })]
      [Event.sendMsg (Payload.notif { method := [98, 97, 114], params := JParams.nothing })]
      { pending := [(JId.num 1, 0)], pendingMessages := [], isPending := false,
        readerAlive := true, writerAlive := true,
        wire := [Payload.request 0
          { id := JId.num 1, method := [102, 111, 111], params := JParams.nothing },
          Payload.notif { method := [98, 97, 114], params := JParams.nothing }],
        inbound := [initializedCall], deliveries := [],
        insertions := [0], removals := [] }
      (by decide) (by rfl)).1⟩

/-- Witness for C3 at the initial state: a dequeued shutdown request while
Pending kills the Writer without writing. -/
theorem c3_witness :
    run initState [] = some initState ∧
    initState.isPending = true ∧
    initState.writerAlive = true ∧
    is_shutdown (Payload.request 7
      { id := JId.num 9, method := shutdownMethod, params := JParams.nothing }) = true ∧
    step initState (Event.sendMsg (Payload.request 7
        { id := JId.num 9, method := shutdownMethod, params := JParams.nothing }))
      = some { initState with writerAlive := false } :=
  ⟨rfl, rfl, rfl, by decide,
    (c3_pending_shutdown_terminates [] initState
      (Payload.request 7
        { id := JId.num 9, method := shutdownMethod, params := JParams.nothing })
      rfl rfl rfl (by decide)).1⟩

/-- Witness for C4 on a table with two registered requests: the drain delivers
`StreamClosed` on both channels and exits the Reader. -/
theorem c4_witness :
    ({ initState with pending := [(JId.num 1, 0), (JId.num 2, 1)] } : TState).readerAlive
      = true ∧
    (({ initState with pending := [(JId.num 1, 0), (JId.num 2, 1)] } : TState).pending.map
      Prod.snd).Nodup ∧
    step { initState with pending := [(JId.num 1, 0), (JId.num 2, 1)] } Event.readClosed
      = some { ({ initState with pending := [(JId.num 1, 0), (JId.num 2, 1)] } : TState) with
          pending := [],
          removals := ({ initState with
            pending := [(JId.num 1, 0), (JId.num 2, 1)] } : TState).removals
            ++ ({ initState with
              pending := [(JId.num 1, 0), (JId.num 2, 1)] } : TState).pending.map
                (fun e => e.2),
          deliveries := ({ initState with
            pending := [(JId.num 1, 0), (JId.num 2, 1)] } : TState).deliveries
            ++ ({ initState with
              pending := [(JId.num 1, 0), (JId.num 2, 1)] } : TState).pending.map
                (fun e => (e.2, TRes.err TError.streamClosed)),
          inbound := ({ initState with
            pending := [(JId.num 1, 0), (JId.num 2, 1)] } : TState).inbound ++ [exitCall],
          readerAlive := false } :=
  ⟨rfl, by decide,
    (c4_drain_on_closure { initState with pending := [(JId.num 1, 0), (JId.num 2, 1)] }
      rfl (by decide)).1⟩

/-- Witness for C5: a response with an unregistered id leaves the initial
state untouched. -/
theorem c5_witness :
    initState.readerAlive = true ∧
    tableFind (outputId (Output.success JId.null Json.null)) initState.pending = none ∧
    step initState (Event.readMsg (ServerMessage.output (Output.success JId.null Json.null)))
      = some initState :=
  ⟨rfl, rfl, c5_stale_response_noop initState (Output.success JId.null Json.null) rfl rfl⟩

/-- Witness for C6 on a concrete request message and a concrete garbage body:
the framed serialization decodes back to the message, and a 5-byte frame of
unparsable text decodes to the fatal decode error. -/
theorem c6_witness :
    utf8Valid (serMethodCall
      { id := JId.num 1, method := [102, 111, 111], params := JParams.nothing }) = true ∧
    bodyDecode (serMethodCall
        { id := JId.num 1, method := [102, 111, 111], params := JParams.nothing })
      = Except.ok (ServerMessage.call (Call.methodCall
        { id := JId.num 1, method := [102, 111, 111], params := JParams.nothing })) ∧
    bodyDecode [119, 120, 121, 122, 116] = Except.error RecvErr.badMessage ∧
    recvServerMessage (sendStringToServer (serMethodCall
        { id := JId.num 1, method := [102, 111, 111], params := JParams.nothing }) ++ [])
        [] []
      = (Except.ok (ServerMessage.call (Call.methodCall
          { id := JId.num 1, method := [102, 111, 111], params := JParams.nothing })),
         [], [13, 10], []) ∧
    recvServerMessage ((mkFrameHdr (serMethodCall
        { id := JId.num 1, method := [102, 111, 111], params := JParams.nothing }).length
        ++ serMethodCall
          { id := JId.num 1, method := [102, 111, 111], params := JParams.nothing }) ++ [])
        [] []
      = (Except.ok (ServerMessage.call (Call.methodCall
          { id := JId.num 1, method := [102, 111, 111], params := JParams.nothing })),
         [], [13, 10], []) ∧
    recvServerMessage ((mkFrameHdr 5 ++ [119, 120, 121, 122, 116]) ++ []) [] []
      = (Except.error RecvErr.badMessage, [], [13, 10], [119, 120, 121, 122, 116]) :=
  ⟨by decide, by decide, by decide,
    c6_frame_roundtrip.1
      { id := JId.num 1, method := [102, 111, 111], params := JParams.nothing }
      [] [] [] (by decide),
    c6_frame_roundtrip.2.1 (serMethodCall
        { id := JId.num 1, method := [102, 111, 111], params := JParams.nothing }).length
      (serMethodCall { id := JId.num 1, method := [102, 111, 111], params := JParams.nothing })
      [] [] []
      (ServerMessage.call (Call.methodCall
        { id := JId.num 1, method := [102, 111, 111], params := JParams.nothing }))
      rfl (by decide),
    c6_frame_roundtrip.2.2 5 [119, 120, 121, 122, 116] [] [] [] RecvErr.badMessage
      rfl (by decide)⟩

/-- Witness for the amended C7 theorem on a concrete stream: residual bytes in
both buffers do not change the decode result, and the successful decode
returns an empty content buffer. -/
theorem c7_witness :
    (recvServerMessage (sendStringToServer (serMethodCall
        { id := JId.num 2, method := [98, 97, 114], params := JParams.nothing }))
        [1] [2]).1
      = (recvServerMessage (sendStringToServer (serMethodCall
          { id := JId.num 2, method := [98, 97, 114], params := JParams.nothing }))
          [] []).1 ∧
    (recvServerMessage (sendStringToServer (serMethodCall
        { id := JId.num 2, method := [98, 97, 114], params := JParams.nothing }))
        [1] [2]).1
      = Except.ok (ServerMessage.call (Call.methodCall
          { id := JId.num 2, method := [98, 97, 114], params := JParams.nothing })) ∧
    (recvServerMessage (sendStringToServer (serMethodCall
        { id := JId.num 2, method := [98, 97, 114], params := JParams.nothing }))
        [1] [2]).2.2.2 = [] :=
  ⟨(c7_amended_buffer_independence (sendStringToServer (serMethodCall
      { id := JId.num 2, method := [98, 97, 114], params := JParams.nothing }))
      [1] [2] [] []).1,
   by decide,
   (c7_amended_buffer_independence (sendStringToServer (serMethodCall
      { id := JId.num 2, method := [98, 97, 114], params := JParams.nothing }))
      [1] [2] [] []).2.2
     (ServerMessage.call (Call.methodCall
       { id := JId.num 2, method := [98, 97, 114], params := JParams.nothing }))
     (by decide)⟩

/-- Witness for C8 on concrete bodies: a response-shaped object is classified
by the response shape, and an object carrying `id`, `result` and `method`
together is never classified as a response. -/
theorem c8_witness :
    parseSM (Json.obj [(idKey, Json.num 1), (resultKey, Json.null)])
      = some (ServerMessage.output (Output.success (JId.num 1) Json.null)) ∧
    respShapeB [(idKey, Json.num 1), (resultKey, Json.null)] = true ∧
    hasFieldB idKey [(idKey, Json.num 1), (resultKey, Json.null),
      (methodKey, Json.str [97])] = true ∧
    hasFieldB resultKey [(idKey, Json.num 1), (resultKey, Json.null),
      (methodKey, Json.str [97])] = true ∧
    hasFieldB methodKey [(idKey, Json.num 1), (resultKey, Json.null),
      (methodKey, Json.str [97])] = true ∧
    parseSM (Json.obj [(idKey, Json.num 1), (resultKey, Json.null),
        (methodKey, Json.str [97])])
      ≠ some (ServerMessage.output (Output.success JId.null Json.null)) :=
  ⟨by decide,
   c8_two_phase_classification.1 [(idKey, Json.num 1), (resultKey, Json.null)]
     (Output.success (JId.num 1) Json.null) (by decide),
   by decide, by decide, by decide,
   c8_two_phase_classification.2.2.2.2
     [(idKey, Json.num 1), (resultKey, Json.null), (methodKey, Json.str [97])]
     (by decide) (by decide) (by decide) (Output.success JId.null Json.null)⟩

/-- Witness for C9 on a table with one registered request: the peer error is
delivered on channel 5 and only that entry is removed. -/
theorem c9_witness :
    ({ initState with pending := [(JId.num 3, 5)] } : TState).readerAlive = true ∧
    tableFind (JId.num 3) ({ initState with
      pending := [(JId.num 3, 5)] } : TState).pending = some 5 ∧
    step { initState with pending := [(JId.num 3, 5)] }
        (Event.readMsg (ServerMessage.output (Output.failure (JId.num 3) Json.null)))
      = some { ({ initState with pending := [(JId.num 3, 5)] } : TState) with
          pending := tableErase (JId.num 3)
            ({ initState with pending := [(JId.num 3, 5)] } : TState).pending,
          removals := ({ initState with
            pending := [(JId.num 3, 5)] } : TState).removals ++ [5],
          deliveries := ({ initState with
            pending := [(JId.num 3, 5)] } : TState).deliveries
            ++ [(5, TRes.err (TError.rpc Json.null))] } :=
  ⟨rfl, rfl,
    c9_peer_error_is_ordinary { initState with pending := [(JId.num 3, 5)] }
      (JId.num 3) Json.null 5 rfl rfl⟩

/-- Witness for C10 at the initial state: a Response payload dequeued while
Pending is appended to the deferred queue. -/
theorem c10_witness :
    initState.writerAlive = true ∧
    initState.isPending = true ∧
    step initState (Event.sendMsg (Payload.response (Output.success (JId.num 4) Json.null)))
      = some { initState with pendingMessages := initState.pendingMessages
          ++ [Payload.response (Output.success (JId.num 4) Json.null)] } :=
  ⟨rfl, rfl,
    (c10_pending_response_deferred initState (Output.success (JId.num 4) Json.null)
      rfl rfl).1⟩

end LspT
